import Mathlib

/-! # ASEP: the event-scheduling and update engine

A shallow embedding of `ASEP::ASEP` (src/ASEP.h) and of the canonical
`exclusion_function` (src/asep_main.cpp, src/unit_tests/unit_tests.cpp).

Modelling conventions.

* `ASEP::ASEP` is a class template over `Universe`, `Particle`, `Timer` and `URNG`.
  The embedding is generic in the same way: `Universe`, `Position`, `Timer` and `URNG`
  are type parameters, and what the engine needs from the library outside the repository
  (the graph, the timer, the random walk step) is the record `Collaborators`.
* Timestamps are C++ `double`s.  The engine only ever compares them with `<`, so they are
  modelled by the rationals: every finite double is a rational and the order agrees.
  NaN is not modelled.
* `std::vector<Particle*>` is a `List` of particle values; the mutation of the particle
  behind `particles[i]` is `List.set` at index `i`.  An index outside the vector is
  undefined behaviour in C++; the embedding returns `none` there.
* `std::sort` is a library routine whose result is only specified up to its postcondition
  (a permutation of the input in which no later element compares less than an earlier
  one).  It is a parameter of `run`, and `StdSort` states the postcondition.  Where the
  order of equal timestamps matters, the parameter is `libstdcxx.sort`, the routine as
  GNU libstdc++ implements it.
* Where a property is about which object a `URNG&` names, `Program` keeps the generator
  objects apart and passes references explicitly; where it is about routines being
  deterministic, `Calls` gives the routines as relations.
-/

set_option linter.dupNamespace false

namespace ASEP

/-- Timestamps (`double` in the source), ordered as rationals. -/
abbrev Time := ℚ

/-- The type `std::pair<size_t, double>` of src/ASEP.h:159: particle index and jump time. -/
abbrev vec_pair := Nat × Time

/-- The comparison lambda of src/ASEP.h:160: `a.second < b.second`. -/
def vec_pair_compare (a b : vec_pair) : Bool := decide (a.2 < b.2)

/-- The postcondition of `std::sort(first, last, comp)` for `comp = vec_pair_compare`:
the output is a rearrangement of the input, and no element compares less than one
standing before it. -/
def StdSort (sort : (vec_pair → vec_pair → Bool) → List vec_pair → List vec_pair) : Prop :=
  ∀ l : List vec_pair,
    (sort vec_pair_compare l).Perm l ∧
    (sort vec_pair_compare l).Pairwise (fun a b => vec_pair_compare b a = false)

/-- What the engine and the particle use from outside the repository
(`desalvo_standard_library`): the universe's `initial_state()`, the construction of a
particle's timer from the generator, the timer's sampling of jump times up to a horizon,
and the random choice of a neighbouring position. -/
structure Collaborators (Universe Position Timer URNG : Type) where
  initial_state : Universe → Position
  timer_seed : URNG → Timer × URNG
  timer_jump_times : Timer → Time → List Time × Timer
  propose : Universe → Position → URNG → Position × URNG

/-- Modelled from the spec: the class `Particle` of particle.h, which is not among the
sources.  A particle has a current position and a private inter-jump-time process state;
it is created with the universe it lives on. -/
structure Particle (Universe Position Timer : Type) where
  the_universe : Universe
  position : Position
  timer : Timer

variable {Universe Position Timer URNG : Type}

/-- Modelled from the spec: the constructor `Particle(universe, initial_state, generator)`
of particle.h.  The particle is created at the given position and takes its own draw from
the generator for future sampling. -/
def Particle.ctor (c : Collaborators Universe Position Timer URNG) (the_universe : Universe)
    (initial_state : Position) (generator : URNG) :
    Particle Universe Position Timer × URNG :=
  let r := c.timer_seed generator
  ({ the_universe := the_universe, position := initial_state, timer := r.1 }, r.2)

/-- Modelled from the spec: `Particle::get_position()` of particle.h, a read accessor. -/
def Particle.get_position (p : Particle Universe Position Timer) : Position := p.position

/-- Modelled from the spec: `Particle::jump_times(horizon)` of particle.h.  It produces the
particle's candidate timestamps from its private timer state; the position is not touched
(`update` is the sole mutation point of the position). -/
def Particle.jump_times (c : Collaborators Universe Position Timer URNG)
    (p : Particle Universe Position Timer) (time : Time) :
    List Time × Particle Universe Position Timer :=
  let r := c.timer_jump_times p.timer time
  (r.1, { p with timer := r.2 })

/-- Modelled from the spec: `Particle::update(rng, all_particles, exclusion_predicate)` of
particle.h.  It computes the proposed position from the current position and the universe,
evaluates the predicate on the proposal and the full collection, and commits the move iff
the predicate returns false; otherwise the position is unchanged. -/
def Particle.update (c : Collaborators Universe Position Timer URNG)
    (p : Particle Universe Position Timer) (generator : URNG)
    (particles : List (Particle Universe Position Timer))
    (exclusion_function : Position → List (Particle Universe Position Timer) → Bool) :
    Particle Universe Position Timer × URNG :=
  let r := c.propose p.the_universe p.position generator
  if exclusion_function r.1 particles then (p, r.2)
  else ({ p with position := r.1 }, r.2)

/-- The canonical exclusion function, src/asep_main.cpp:22-31 (the same body stands in
src/unit_tests/unit_tests.cpp:23-32): `block` starts false and is set to true by every
particle whose position equals the proposed one. -/
def exclusion_function [DecidableEq Position] (proposed_position : Position)
    (particles : List (Particle Universe Position Timer)) : Bool :=
  particles.foldl
    (fun block particle =>
      if particle.get_position = proposed_position then true else block)
    false

/-- The private members of `class ASEP`, src/ASEP.h:185-189. -/
structure ASEP (Universe Position Timer URNG : Type) where
  the_universe : Universe
  particles : List (Particle Universe Position Timer)
  exclusion_function : Position → List (Particle Universe Position Timer) → Bool
  generator : URNG

/-- The loop of the constructor, src/ASEP.h:139-140: `initial_particles` times, a new
particle at `initial_state` is pushed back, each one drawing from the member generator. -/
def ASEP.make_particles (c : Collaborators Universe Position Timer URNG) (the_universe : Universe)
    (initial_state : Position) : Nat → URNG → List (Particle Universe Position Timer) × URNG
  | 0, generator => ([], generator)
  | n + 1, generator =>
    let r := Particle.ctor c the_universe initial_state generator
    let rest := ASEP.make_particles c the_universe initial_state n r.2
    (r.1 :: rest.1, rest.2)

/-- The constructor `ASEP::ASEP`, src/ASEP.h:134-142.  The generator argument is copied into
the member `generator`, and the particles are seeded from that member. -/
def ASEP.ctor (c : Collaborators Universe Position Timer URNG) (initial_universe : Universe)
    (initial_particles : Nat)
    (initial_exclusion_function : Position → List (Particle Universe Position Timer) → Bool)
    (initial_generator : URNG) : ASEP Universe Position Timer URNG :=
  let initial_state := c.initial_state initial_universe
  let r := ASEP.make_particles c initial_universe initial_state initial_particles
    initial_generator
  { the_universe := initial_universe, particles := r.1,
    exclusion_function := initial_exclusion_function, generator := r.2 }

/-- Modelled from the spec: `get_positions()`, which the unit test calls and src/ASEP.h does
not define.  It is the ordered sequence of current particle positions, index-aligned with
construction order. -/
def ASEP.get_positions (e : ASEP Universe Position Timer URNG) : List Position :=
  e.particles.map Particle.get_position

/-- The first loop of `run`, src/ASEP.h:150-156: every particle, in order, is asked for its
jump times, each returned timestamp is pushed back tagged with the running `index`.  The
result is the vector `jump_times` and the particles after the requests. -/
def ASEP.collect (c : Collaborators Universe Position Timer URNG) (time : Time) :
    Nat → List (Particle Universe Position Timer) →
      List vec_pair × List (Particle Universe Position Timer)
  | _, [] => ([], [])
  | index, particle :: rest =>
    let r := particle.jump_times c time
    let tail := ASEP.collect c time (index + 1) rest
    (r.1.map (fun x => (index, x)) ++ tail.1, r.2 :: tail.2)

/-- One pass through the body of the replay loop, src/ASEP.h:168:
`particles[x.first]->update(generator, particles, exclusion_function)`.  The particle behind
index `x.first` is updated in place, the member generator is advanced; `none` when
`x.first` is not an index of `particles`. -/
def ASEP.update_event (c : Collaborators Universe Position Timer URNG) (x : vec_pair)
    (e : ASEP Universe Position Timer URNG) : Option (ASEP Universe Position Timer URNG) :=
  match e.particles[x.1]? with
  | none => none
  | some p =>
    let r := p.update c e.generator e.particles e.exclusion_function
    some { e with particles := e.particles.set x.1 r.1, generator := r.2 }

/-- The replay loop of `run`, src/ASEP.h:167-169: the loop body is run for every entry in
order.  The first component lists the entries whose update was invoked, in invocation
order; the second is the engine after the loop, `none` when an index was out of range. -/
def ASEP.replay (c : Collaborators Universe Position Timer URNG) :
    List vec_pair → ASEP Universe Position Timer URNG →
      List vec_pair × Option (ASEP Universe Position Timer URNG)
  | [], e => ([], some e)
  | x :: xs, e =>
    match ASEP.update_event c x e with
    | none => ([], none)
    | some e1 =>
      let after := ASEP.replay c xs e1
      (x :: after.1, after.2)

/-- The vector `jump_times` of `run` before sorting (src/ASEP.h:150-156). -/
def ASEP.candidates (c : Collaborators Universe Position Timer URNG)
    (e : ASEP Universe Position Timer URNG) (time : Time) : List vec_pair :=
  (ASEP.collect c time 0 e.particles).1

/-- The engine after the jump-time requests of `run` and before the replay. -/
def ASEP.sampled (c : Collaborators Universe Position Timer URNG)
    (e : ASEP Universe Position Timer URNG) (time : Time) : ASEP Universe Position Timer URNG :=
  { e with particles := (ASEP.collect c time 0 e.particles).2 }

/-- The vector `jump_times` of `run` after `std::sort` (src/ASEP.h:163). -/
def ASEP.events (c : Collaborators Universe Position Timer URNG)
    (std_sort : (vec_pair → vec_pair → Bool) → List vec_pair → List vec_pair)
    (e : ASEP Universe Position Timer URNG) (time : Time) : List vec_pair :=
  std_sort vec_pair_compare (ASEP.candidates c e time)

/-- The entries for which `run(time)` invokes `update`, in invocation order. -/
def ASEP.updates (c : Collaborators Universe Position Timer URNG)
    (std_sort : (vec_pair → vec_pair → Bool) → List vec_pair → List vec_pair)
    (e : ASEP Universe Position Timer URNG) (time : Time) : List vec_pair :=
  (ASEP.replay c (ASEP.events c std_sort e time) (ASEP.sampled c e time)).1

/-- The member function `ASEP::run`, src/ASEP.h:147-171: collect the tagged jump times, sort
them by timestamp, replay them.  The result is the engine after the call. -/
def ASEP.run (c : Collaborators Universe Position Timer URNG)
    (std_sort : (vec_pair → vec_pair → Bool) → List vec_pair → List vec_pair)
    (e : ASEP Universe Position Timer URNG) (time : Time) :
    Option (ASEP Universe Position Timer URNG) :=
  (ASEP.replay c (ASEP.events c std_sort e time) (ASEP.sampled c e time)).2

/-- The engine after the first `k` entries of the sorted vector have been replayed. -/
def ASEP.run_upto (c : Collaborators Universe Position Timer URNG)
    (std_sort : (vec_pair → vec_pair → Bool) → List vec_pair → List vec_pair)
    (e : ASEP Universe Position Timer URNG) (time : Time) (k : Nat) :
    Option (ASEP Universe Position Timer URNG) :=
  (ASEP.replay c ((ASEP.events c std_sort e time).take k) (ASEP.sampled c e time)).2

/-! ### Concrete collaborators, used to evaluate the engine -/

/-- Insertion sort by the comparator: an element is placed before the first element that
does not compare less than it.  It meets the postcondition of `std::sort` and keeps the
order of elements the comparator does not separate. -/
def insertion_sort (comp : vec_pair → vec_pair → Bool) (l : List vec_pair) : List vec_pair :=
  List.insertionSort (fun a b => comp b a = false) l

/-- Insertion sort run over the input from the back.  It meets the postcondition of
`std::sort` as well, and turns around the elements the comparator does not separate. -/
def backward_sort (comp : vec_pair → vec_pair → Bool) (l : List vec_pair) : List vec_pair :=
  List.insertionSort (fun a b => comp b a = false) l.reverse

/-- The particle contract of the spec for `jump_times(horizon)`: only timestamps in
`[0, horizon)` are returned. -/
def JumpTimesInHorizon (c : Collaborators Universe Position Timer URNG) : Prop :=
  ∀ (timer : Timer) (horizon x : Time), x ∈ (c.timer_jump_times timer horizon).1 →
    0 ≤ x ∧ x < horizon

/-- A deterministic library stand-in.  The universe is the number `n` of nodes of a graph
with nodes `0 .. n-1` and initial state `0`; the generator is a counter; the timer counts
the sampling requests it has served and ticks at the times `0, 1, 2, 3` below the horizon;
the proposed neighbour is the current node shifted by the generator state. -/
def demo : Collaborators Nat Nat Nat Nat where
  initial_state := fun _ => 0
  timer_seed := fun g => (0, g + 1)
  timer_jump_times := fun n horizon =>
    (((List.range 4).map (fun k : Nat => (k : Time))).filter (fun x => decide (x < horizon)),
      n + 1)
  propose := fun u pos g => ((pos + g) % u, g + 1)

/-- Two particles on the nodes `0` and `1` of a three-node universe, with the canonical
exclusion function. -/
def demo_engine : ASEP Nat Nat Nat Nat where
  the_universe := 3
  particles := [⟨3, 0, 0⟩, ⟨3, 1, 0⟩]
  exclusion_function := exclusion_function
  generator := 1

/-- A second library stand-in, as `demo` but with timers that differ: a timer in state `0`
is idle and returns no jump time, any other timer ticks at the times `0, 1, 2, 3` below
the horizon. -/
def demo_idle : Collaborators Nat Nat Nat Nat where
  initial_state := fun _ => 0
  timer_seed := fun g => (g % 2, g + 1)
  timer_jump_times := fun n horizon =>
    (if n = 0 then []
      else ((List.range 4).map (fun k : Nat => (k : Time))).filter
        (fun x => decide (x < horizon)),
      n)
  propose := fun u pos g => ((pos + g) % u, g + 1)

/-- Two particles on the nodes `0` and `1` of a three-node universe: the first with an idle
timer, the second with a ticking one. -/
def idle_engine : ASEP Nat Nat Nat Nat where
  the_universe := 3
  particles := [⟨3, 0, 0⟩, ⟨3, 1, 1⟩]
  exclusion_function := exclusion_function
  generator := 0

/-- The number of pairs of places `j < k` of a position sequence that hold the same
position. -/
def sharing_pairs [DecidableEq Position] : List Position → Nat
  | [] => 0
  | a :: l => l.count a + sharing_pairs l

/-- The places `j` and `k` of a position sequence hold different positions. -/
abbrev separated (l : List Position) (j k : Nat) : Prop :=
  j < l.length ∧ k < l.length ∧ l[j]? ≠ l[k]?

/-- The `URNG` objects of a program that builds an engine: the generator of the caller, to
which the constructor parameter `URNG& initial_generator` refers (src/ASEP.h:134,
src/asep_main.cpp:36, 49), and the member `generator` of the engine (src/ASEP.h:189). -/
inductive GeneratorObject where
  | initial_generator
  | generator
  deriving DecidableEq

/-- The states of the generator objects of a program. -/
abbrev Generators (URNG : Type) := GeneratorObject → URNG

/-- A call that receives a generator by reference: the callee works on the object the
reference names, and the state it leaves is written to that object. -/
def by_reference {α : Type} (call : URNG → α × URNG) (object : GeneratorObject)
    (generators : Generators URNG) : α × Generators URNG :=
  let r := call (generators object)
  (r.1, Function.update generators object r.2)

/-- The state of a program that holds an engine, with the generator objects kept apart from
the other members of the engine, so that the object every `URNG&` argument names is
explicit. -/
structure Program (Universe Position Timer URNG : Type) where
  generators : Generators URNG
  the_universe : Universe
  particles : List (Particle Universe Position Timer)
  exclusion_function : Position → List (Particle Universe Position Timer) → Bool

/-- The engine of a program: its member `generator` is the object of that name. -/
def Program.asep (p : Program Universe Position Timer URNG) : ASEP Universe Position Timer URNG :=
  { the_universe := p.the_universe, particles := p.particles,
    exclusion_function := p.exclusion_function,
    generator := p.generators GeneratorObject.generator }

/-- The constructor loop with its references, src/ASEP.h:139-140:
`new Particle(universe, initial_state, generator)` names the member `generator`. -/
def Program.make_particles (c : Collaborators Universe Position Timer URNG)
    (the_universe : Universe) (initial_state : Position) :
    Nat → Generators URNG → List (Particle Universe Position Timer) × Generators URNG
  | 0, generators => ([], generators)
  | n + 1, generators =>
    let r := by_reference (Particle.ctor c the_universe initial_state)
      GeneratorObject.generator generators
    let rest := Program.make_particles c the_universe initial_state n r.2
    (r.1 :: rest.1, rest.2)

/-- The constructor with its references, src/ASEP.h:134-142.  The member initialiser
`generator(initial_generator)` copies the caller's object into the member; the loop then
names the member. -/
def Program.ctor (c : Collaborators Universe Position Timer URNG) (initial_universe : Universe)
    (initial_particles : Nat)
    (initial_exclusion_function : Position → List (Particle Universe Position Timer) → Bool)
    (generators : Generators URNG) : Program Universe Position Timer URNG :=
  let copied := Function.update generators GeneratorObject.generator
    (generators GeneratorObject.initial_generator)
  let initial_state := c.initial_state initial_universe
  let r := Program.make_particles c initial_universe initial_state initial_particles copied
  { generators := r.2, the_universe := initial_universe, particles := r.1,
    exclusion_function := initial_exclusion_function }

/-- The loop body of the replay with its references, src/ASEP.h:168:
`update(generator, particles, exclusion_function)` names the member `generator`. -/
def Program.update_event (c : Collaborators Universe Position Timer URNG) (x : vec_pair)
    (p : Program Universe Position Timer URNG) : Option (Program Universe Position Timer URNG) :=
  match p.particles[x.1]? with
  | none => none
  | some q =>
    let r := by_reference (fun g => q.update c g p.particles p.exclusion_function)
      GeneratorObject.generator p.generators
    some { p with particles := p.particles.set x.1 r.1, generators := r.2 }

/-- The replay loop with its references, src/ASEP.h:167-169. -/
def Program.replay (c : Collaborators Universe Position Timer URNG) :
    List vec_pair → Program Universe Position Timer URNG →
      Option (Program Universe Position Timer URNG)
  | [], p => some p
  | x :: xs, p => (Program.update_event c x p).bind (Program.replay c xs)

/-- The member function `run` with its references, src/ASEP.h:147-171.  The jump-time
requests receive no generator; the replay names the member. -/
def Program.run (c : Collaborators Universe Position Timer URNG)
    (std_sort : (vec_pair → vec_pair → Bool) → List vec_pair → List vec_pair)
    (p : Program Universe Position Timer URNG) (time : Time) :
    Option (Program Universe Position Timer URNG) :=
  let collected := ASEP.collect c time 0 p.particles
  Program.replay c (std_sort vec_pair_compare collected.1) { p with particles := collected.2 }

/-- One call of `run` for every horizon of a list, in order. -/
def Program.runs (c : Collaborators Universe Position Timer URNG)
    (std_sort : (vec_pair → vec_pair → Bool) → List vec_pair → List vec_pair) :
    List Time → Program Universe Position Timer URNG →
      Option (Program Universe Position Timer URNG)
  | [], p => some p
  | time :: rest, p => (Program.run c std_sort p time).bind (Program.runs c std_sort rest)

/-- The generator objects of a caller whose generator is in state 42, before an engine is
constructed. -/
def demo_generators : Generators Nat
  | GeneratorObject.initial_generator => 42
  | GeneratorObject.generator => 0

/-! ### The engine over routines that need not be functions of their arguments -/

/-- The calls that the constructor and `run` make into code outside src/ASEP.h
(`universe->initial_state()`, `new Particle(...)`, `particle->jump_times(time)`,
`particles[i]->update(generator, particles, exclusion_function)`, `std::sort`), each as a
relation between the arguments of the call, with the state the call can reach, and what
the call may leave.  Several outcomes for the same arguments stand for a routine whose
result depends on something else than its arguments.  The call of the exclusion predicate
happens inside `update` and is part of that relation. -/
structure Calls (Universe Position Timer URNG : Type) where
  initial_state : Universe → Position → Prop
  new_particle : Universe → Position → URNG → Particle Universe Position Timer × URNG → Prop
  jump_times : Particle Universe Position Timer → Time →
    List Time × Particle Universe Position Timer → Prop
  update : Particle Universe Position Timer → URNG → List (Particle Universe Position Timer) →
    (Position → List (Particle Universe Position Timer) → Bool) →
    Particle Universe Position Timer × URNG → Prop
  sort : List vec_pair → List vec_pair → Prop

/-- Every routine is deterministic given its arguments: a call has at most one outcome. -/
def Calls.Deterministic (k : Calls Universe Position Timer URNG) : Prop :=
  (∀ u s1 s2, k.initial_state u s1 → k.initial_state u s2 → s1 = s2) ∧
  (∀ u s g r1 r2, k.new_particle u s g r1 → k.new_particle u s g r2 → r1 = r2) ∧
  (∀ p t r1 r2, k.jump_times p t r1 → k.jump_times p t r2 → r1 = r2) ∧
  (∀ p g ps pred r1 r2, k.update p g ps pred r1 → k.update p g ps pred r2 → r1 = r2) ∧
  (∀ l l1 l2, k.sort l l1 → k.sort l l2 → l1 = l2)

/-- The constructor loop, src/ASEP.h:139-140: from the member generator in state `g`, `n`
passes may push back the particles `ps` and leave the generator in state `g2`. -/
inductive Calls.MakeParticles (k : Calls Universe Position Timer URNG) (u : Universe)
    (s : Position) : Nat → URNG → List (Particle Universe Position Timer) → URNG → Prop
  | done (g : URNG) : Calls.MakeParticles k u s 0 g [] g
  | push (n : Nat) (g g1 g2 : URNG) (p : Particle Universe Position Timer)
      (ps : List (Particle Universe Position Timer)) :
      k.new_particle u s g (p, g1) → Calls.MakeParticles k u s n g1 ps g2 →
      Calls.MakeParticles k u s (n + 1) g (p :: ps) g2

/-- The constructor, src/ASEP.h:134-142, may build the engine `e` from the given
arguments. -/
def Calls.Constructs (k : Calls Universe Position Timer URNG) (u : Universe) (n : Nat)
    (pred : Position → List (Particle Universe Position Timer) → Bool) (g : URNG)
    (e : ASEP Universe Position Timer URNG) : Prop :=
  ∃ s ps g2, k.initial_state u s ∧ Calls.MakeParticles k u s n g ps g2 ∧
    e = { the_universe := u, particles := ps, exclusion_function := pred, generator := g2 }

/-- The first loop of `run`, src/ASEP.h:150-156: from the running index `index`, the
particles `ps` may yield the tagged vector `jump_times` and be left as `ps1`. -/
inductive Calls.Collects (k : Calls Universe Position Timer URNG) (time : Time) :
    Nat → List (Particle Universe Position Timer) → List vec_pair →
      List (Particle Universe Position Timer) → Prop
  | done (index : Nat) : Calls.Collects k time index [] [] []
  | push (index : Nat) (p p1 : Particle Universe Position Timer) (ts : List Time)
      (rest rest1 : List (Particle Universe Position Timer)) (jump_times : List vec_pair) :
      k.jump_times p time (ts, p1) → Calls.Collects k time (index + 1) rest jump_times rest1 →
      Calls.Collects k time index (p :: rest) (ts.map (fun x => (index, x)) ++ jump_times)
        (p1 :: rest1)

/-- The replay loop of `run`, src/ASEP.h:167-169: replaying the entries from the engine `e`
may end in the engine `e2`.  A pass needs `x.first` to be an index of the particles. -/
inductive Calls.Replays (k : Calls Universe Position Timer URNG) :
    List vec_pair → ASEP Universe Position Timer URNG → ASEP Universe Position Timer URNG → Prop
  | done (e : ASEP Universe Position Timer URNG) : Calls.Replays k [] e e
  | step (x : vec_pair) (xs : List vec_pair) (e e2 : ASEP Universe Position Timer URNG)
      (p p1 : Particle Universe Position Timer) (g1 : URNG) :
      e.particles[x.1]? = some p →
      k.update p e.generator e.particles e.exclusion_function (p1, g1) →
      Calls.Replays k xs { e with particles := e.particles.set x.1 p1, generator := g1 } e2 →
      Calls.Replays k (x :: xs) e e2

/-- The member function `run`, src/ASEP.h:147-171: `run(time)` on the engine `e` may end in
the engine `e2`. -/
def Calls.Runs (k : Calls Universe Position Timer URNG) (time : Time)
    (e e2 : ASEP Universe Position Timer URNG) : Prop :=
  ∃ jump_times ps sorted, Calls.Collects k time 0 e.particles jump_times ps ∧
    k.sort jump_times sorted ∧ Calls.Replays k sorted { e with particles := ps } e2

/-- The routines given by functions: the collaborators `c`, the particle operations built
on them, and a sort routine. -/
def calls_of (c : Collaborators Universe Position Timer URNG)
    (std_sort : (vec_pair → vec_pair → Bool) → List vec_pair → List vec_pair) :
    Calls Universe Position Timer URNG where
  initial_state := fun u s => s = c.initial_state u
  new_particle := fun u s g r => r = Particle.ctor c u s g
  jump_times := fun p t r => r = p.jump_times c t
  update := fun p g ps pred r => r = p.update c g ps pred
  sort := fun l l1 => l1 = std_sort vec_pair_compare l

end ASEP

/-! ### `std::sort` as implemented in GNU libstdc++

The routines of `bits/stl_algo.h` and `bits/stl_heap.h` behind `std::sort`, on an array
held as a list.  The partition and the heap routines work on positions of the array, as
the source does on iterators; the insertion routines work on the sorted range as a list.
Loops whose exit depends on the data run under a bound that the array size supplies. -/

namespace ASEP.libstdcxx

/-- The element at position `i` of the array (`*(first + i)`). -/
def elem (arr : List vec_pair) (i : Nat) : vec_pair := arr.getD i (0, 0)

/-- The routine `std::iter_swap(i, j)`. -/
def iter_swap (arr : List vec_pair) (i j : Nat) : List vec_pair :=
  (arr.set i (elem arr j)).set j (elem arr i)

/-- The routine `std::__lg(n)`: the position of the highest set bit. -/
def lg : Nat → Nat → Nat
  | 0, _ => 0
  | fuel + 1, n => if n < 2 then 0 else lg fuel (n / 2) + 1

/-- The routine `__move_median_to_first(result, a, b, c, comp)`: the median of the elements
at `a`, `b`, `c` is swapped to `result`. -/
def move_median_to_first (comp : vec_pair → vec_pair → Bool) (arr : List vec_pair)
    (result a b c : Nat) : List vec_pair :=
  if comp (elem arr a) (elem arr b) then
    if comp (elem arr b) (elem arr c) then iter_swap arr result b
    else if comp (elem arr a) (elem arr c) then iter_swap arr result c
    else iter_swap arr result a
  else if comp (elem arr a) (elem arr c) then iter_swap arr result a
  else if comp (elem arr b) (elem arr c) then iter_swap arr result c
  else iter_swap arr result b

/-- The inner loop `while (comp(first, pivot)) ++first` of `__unguarded_partition`. -/
def scan_up (comp : vec_pair → vec_pair → Bool) (arr : List vec_pair) (pivot : Nat) :
    Nat → Nat → Nat
  | 0, first => first
  | fuel + 1, first =>
    if comp (elem arr first) (elem arr pivot) then scan_up comp arr pivot fuel (first + 1)
    else first

/-- The inner loop `while (comp(pivot, last)) --last` of `__unguarded_partition`. -/
def scan_down (comp : vec_pair → vec_pair → Bool) (arr : List vec_pair) (pivot : Nat) :
    Nat → Nat
  | 0 => 0
  | last + 1 =>
    if comp (elem arr pivot) (elem arr (last + 1)) then scan_down comp arr pivot last
    else last + 1

/-- The routine `__unguarded_partition(first, last, pivot, comp)`: elements that do not
compare less than the pivot, met from the left, are swapped with elements that the pivot
does not compare less than, met from the right, until the two scans meet; the meeting
position is returned. -/
def unguarded_partition (comp : vec_pair → vec_pair → Bool) (pivot : Nat) :
    Nat → Nat → Nat → List vec_pair → List vec_pair × Nat
  | 0, first, _, arr => (arr, first)
  | fuel + 1, first, last, arr =>
    let first1 := scan_up comp arr pivot arr.length first
    let last1 := scan_down comp arr pivot (last - 1)
    if first1 < last1 then
      unguarded_partition comp pivot fuel (first1 + 1) last1 (iter_swap arr first1 last1)
    else (arr, first1)

/-- The routine `__unguarded_partition_pivot(first, last, comp)`. -/
def unguarded_partition_pivot (comp : vec_pair → vec_pair → Bool) (first last : Nat)
    (arr : List vec_pair) : List vec_pair × Nat :=
  let mid := first + (last - first) / 2
  let arr1 := move_median_to_first comp arr first (first + 1) mid (last - 1)
  unguarded_partition comp first arr1.length (first + 1) last arr1

/-- The routine `__push_heap(first, holeIndex, topIndex, value, comp)`. -/
def push_heap (comp : vec_pair → vec_pair → Bool) (first topIndex : Nat) (value : vec_pair) :
    Nat → Nat → List vec_pair → List vec_pair
  | 0, holeIndex, arr => arr.set (first + holeIndex) value
  | fuel + 1, holeIndex, arr =>
    let parent := (holeIndex - 1) / 2
    if holeIndex > topIndex ∧ comp (elem arr (first + parent)) value = true then
      push_heap comp first topIndex value fuel parent
        (arr.set (first + holeIndex) (elem arr (first + parent)))
    else arr.set (first + holeIndex) value

/-- The `while` loop of `__adjust_heap`: the hole moves down to the larger child.  The
result is the array, the hole and `secondChild`. -/
def adjust_heap_loop (comp : vec_pair → vec_pair → Bool) (first len : Nat) :
    Nat → Nat → Nat → List vec_pair → List vec_pair × Nat × Nat
  | 0, holeIndex, secondChild, arr => (arr, holeIndex, secondChild)
  | fuel + 1, holeIndex, secondChild, arr =>
    if secondChild < (len - 1) / 2 then
      let child := 2 * (secondChild + 1)
      let child1 :=
        if comp (elem arr (first + child)) (elem arr (first + (child - 1))) then child - 1
        else child
      adjust_heap_loop comp first len fuel child1 child1
        (arr.set (first + holeIndex) (elem arr (first + child1)))
    else (arr, holeIndex, secondChild)

/-- The routine `__adjust_heap(first, holeIndex, len, value, comp)`. -/
def adjust_heap (comp : vec_pair → vec_pair → Bool) (first holeIndex len : Nat)
    (value : vec_pair) (arr : List vec_pair) : List vec_pair :=
  let r := adjust_heap_loop comp first len len holeIndex holeIndex arr
  let r1 : List vec_pair × Nat :=
    if len % 2 = 0 ∧ r.2.2 = (len - 2) / 2 then
      (r.1.set (first + r.2.1) (elem r.1 (first + (2 * (r.2.2 + 1) - 1))),
        2 * (r.2.2 + 1) - 1)
    else (r.1, r.2.1)
  push_heap comp first holeIndex value len r1.2 r1.1

/-- The loop of `__make_heap`, from `parent` down to 0. -/
def make_heap_loop (comp : vec_pair → vec_pair → Bool) (first len : Nat) :
    Nat → List vec_pair → List vec_pair
  | 0, arr => adjust_heap comp first 0 len (elem arr first) arr
  | parent + 1, arr =>
    make_heap_loop comp first len parent
      (adjust_heap comp first (parent + 1) len (elem arr (first + (parent + 1))) arr)

/-- The routine `__make_heap(first, last, comp)`. -/
def make_heap (comp : vec_pair → vec_pair → Bool) (first last : Nat)
    (arr : List vec_pair) : List vec_pair :=
  if last - first < 2 then arr
  else make_heap_loop comp first (last - first) ((last - first - 2) / 2) arr

/-- The routine `__pop_heap(first, last, result, comp)`. -/
def pop_heap (comp : vec_pair → vec_pair → Bool) (first last result : Nat)
    (arr : List vec_pair) : List vec_pair :=
  adjust_heap comp first 0 (last - first) (elem arr result)
    (arr.set result (elem arr first))

/-- The routine `__sort_heap(first, last, comp)`, by the size `last - first`. -/
def sort_heap (comp : vec_pair → vec_pair → Bool) (first : Nat) :
    Nat → List vec_pair → List vec_pair
  | 0, arr => arr
  | n + 1, arr =>
    if n + 1 > 1 then sort_heap comp first n (pop_heap comp first (first + n) (first + n) arr)
    else arr

/-- The call `__partial_sort(first, last, last, comp)` of `__introsort_loop`: the range is
made a heap and the heap is sorted. -/
def partial_sort (comp : vec_pair → vec_pair → Bool) (first last : Nat)
    (arr : List vec_pair) : List vec_pair :=
  sort_heap comp first (last - first) (make_heap comp first last arr)

/-- The routine `__introsort_loop(first, last, depth_limit, comp)`: while the range has more
than 16 elements it is partitioned, the right part is sorted by a recursive call and the
loop goes on with the left part; at depth limit 0 the range is heap-sorted. -/
def introsort_loop (comp : vec_pair → vec_pair → Bool) :
    Nat → Nat → Nat → List vec_pair → List vec_pair
  | 0, first, last, arr => if last - first > 16 then partial_sort comp first last arr else arr
  | depth_limit + 1, first, last, arr =>
    if last - first > 16 then
      let r := unguarded_partition_pivot comp first last arr
      introsort_loop comp depth_limit first r.2 (introsort_loop comp depth_limit r.2 last r.1)
    else arr

/-- The loop of `__unguarded_linear_insert`: the value goes left past every element it
compares less than.  The argument lists the elements before the hole, the nearest first;
so does the result, with the value in its place. -/
def unguarded_linear_insert_loop (comp : vec_pair → vec_pair → Bool) (val : vec_pair) :
    List vec_pair → List vec_pair
  | [] => [val]
  | next :: before =>
    if comp val next then next :: unguarded_linear_insert_loop comp val before
    else val :: next :: before

/-- The routine `__unguarded_linear_insert(last, comp)`, for the range before `last` and
the value at `last`. -/
def unguarded_linear_insert (comp : vec_pair → vec_pair → Bool) (range : List vec_pair)
    (val : vec_pair) : List vec_pair :=
  (unguarded_linear_insert_loop comp val range.reverse).reverse

/-- The loop body of `__insertion_sort`: a value that compares less than the first element
is moved to the front, any other value is inserted by `__unguarded_linear_insert`. -/
def insertion_sort_step (comp : vec_pair → vec_pair → Bool) (sorted : List vec_pair)
    (val : vec_pair) : List vec_pair :=
  match sorted with
  | [] => [val]
  | first :: _ =>
    if comp val first then val :: sorted else unguarded_linear_insert comp sorted val

/-- The routine `__insertion_sort(first, last, comp)`. -/
def insertion_sort (comp : vec_pair → vec_pair → Bool) (arr : List vec_pair) :
    List vec_pair :=
  arr.foldl (insertion_sort_step comp) []

/-- The routine `__final_insertion_sort(first, last, comp)`: above 16 elements the first 16
are insertion-sorted and the others inserted unguarded. -/
def final_insertion_sort (comp : vec_pair → vec_pair → Bool) (arr : List vec_pair) :
    List vec_pair :=
  if arr.length > 16 then
    (arr.drop 16).foldl (unguarded_linear_insert comp) (insertion_sort comp (arr.take 16))
  else insertion_sort comp arr

/-- The routine `std::sort(first, last, comp)` (`std::__sort`). -/
def sort (comp : vec_pair → vec_pair → Bool) (arr : List vec_pair) : List vec_pair :=
  match arr with
  | [] => []
  | _ :: _ =>
    final_insertion_sort comp
      (introsort_loop comp (2 * lg arr.length arr.length) 0 arr.length arr)

end ASEP.libstdcxx

/-! ### Auxiliary facts about the pieces of the engine -/

namespace ASEP

variable {Universe Position Timer URNG : Type}

theorem exclusion_fold [DecidableEq Position] (proposed_position : Position) :
    ∀ (particles : List (Particle Universe Position Timer)) (b : Bool),
      particles.foldl
          (fun block particle =>
            if particle.get_position = proposed_position then true else block) b = true ↔
        b = true ∨ ∃ q ∈ particles, q.get_position = proposed_position := by
  intro particles
  induction particles with
  | nil => intro b; simp
  | cons p ps ih =>
    intro b
    rw [List.foldl_cons, ih]
    by_cases hp : p.get_position = proposed_position
    · simp [hp]
    · simp [hp]

theorem exclusion_function_true_iff [DecidableEq Position] (proposed_position : Position)
    (particles : List (Particle Universe Position Timer)) :
    exclusion_function proposed_position particles = true ↔
      ∃ q ∈ particles, q.get_position = proposed_position := by
  unfold exclusion_function
  rw [exclusion_fold]
  simp

theorem make_particles_positions (c : Collaborators Universe Position Timer URNG)
    (u : Universe) (s : Position) :
    ∀ (n : Nat) (g : URNG),
      (ASEP.make_particles c u s n g).1.map Particle.get_position = List.replicate n s := by
  intro n
  induction n with
  | zero => intro g; rfl
  | succ n ih =>
    intro g
    simp only [ASEP.make_particles, List.map_cons, List.replicate_succ, ih]
    rfl

theorem collect_positions (c : Collaborators Universe Position Timer URNG) (time : Time) :
    ∀ (ps : List (Particle Universe Position Timer)) (index : Nat),
      (ASEP.collect c time index ps).2.map Particle.get_position =
        ps.map Particle.get_position := by
  intro ps
  induction ps with
  | nil => intro index; rfl
  | cons p ps ih =>
    intro index
    simp only [ASEP.collect, List.map_cons, ih]
    rfl

theorem collect_length (c : Collaborators Universe Position Timer URNG) (time : Time)
    (ps : List (Particle Universe Position Timer)) (index : Nat) :
    (ASEP.collect c time index ps).2.length = ps.length := by
  have h := congrArg List.length (collect_positions c time ps index)
  simpa using h

theorem collect_index (c : Collaborators Universe Position Timer URNG) (time : Time) :
    ∀ (ps : List (Particle Universe Position Timer)) (index : Nat) (x : vec_pair),
      x ∈ (ASEP.collect c time index ps).1 → index ≤ x.1 ∧ x.1 < index + ps.length := by
  intro ps
  induction ps with
  | nil => intro index x hx; simp [ASEP.collect] at hx
  | cons p ps ih =>
    intro index x hx
    simp only [ASEP.collect, List.mem_append, List.mem_map] at hx
    rcases hx with ⟨t, _, rfl⟩ | hx
    · simp
    · have := ih (index + 1) x hx
      simp only [List.length_cons]
      omega

theorem update_event_some (c : Collaborators Universe Position Timer URNG) (x : vec_pair)
    (e : ASEP Universe Position Timer URNG) (hx : x.1 < e.particles.length) :
    ∃ e1, ASEP.update_event c x e = some e1 := by
  unfold ASEP.update_event
  rw [List.getElem?_eq_getElem hx]
  exact ⟨_, rfl⟩

theorem update_event_length (c : Collaborators Universe Position Timer URNG) (x : vec_pair)
    (e e1 : ASEP Universe Position Timer URNG) (h : ASEP.update_event c x e = some e1) :
    e1.particles.length = e.particles.length := by
  unfold ASEP.update_event at h
  split at h
  · exact absurd h (by simp)
  · injection h with h
    subst h
    simp

theorem update_event_predicate (c : Collaborators Universe Position Timer URNG) (x : vec_pair)
    (e e1 : ASEP Universe Position Timer URNG) (h : ASEP.update_event c x e = some e1) :
    e1.exclusion_function = e.exclusion_function := by
  unfold ASEP.update_event at h
  split at h
  · exact absurd h (by simp)
  · injection h with h
    subst h
    rfl

/-- A property of the engine kept by every pass of the loop body is kept by the replay. -/
theorem replay_keeps (c : Collaborators Universe Position Timer URNG)
    (I : ASEP Universe Position Timer URNG → Prop)
    (hI : ∀ x e e1, I e → ASEP.update_event c x e = some e1 → I e1) :
    ∀ (xs : List vec_pair) (e e2 : ASEP Universe Position Timer URNG),
      I e → (ASEP.replay c xs e).2 = some e2 → I e2 := by
  intro xs
  induction xs with
  | nil =>
    intro e e2 he h
    simp only [ASEP.replay, Option.some.injEq] at h
    exact h ▸ he
  | cons x xs ih =>
    intro e e2 he h
    unfold ASEP.replay at h
    cases hu : ASEP.update_event c x e with
    | none => rw [hu] at h; exact absurd h (by simp)
    | some e1 =>
      rw [hu] at h
      exact ih e1 e2 (hI x e e1 he hu) h

/-- When every entry carries an index of the particle vector, the replay invokes the update
of every entry, in order, and ends with an engine. -/
theorem replay_in_range (c : Collaborators Universe Position Timer URNG) :
    ∀ (xs : List vec_pair) (e : ASEP Universe Position Timer URNG),
      (∀ x ∈ xs, x.1 < e.particles.length) →
        (ASEP.replay c xs e).1 = xs ∧ ∃ e2, (ASEP.replay c xs e).2 = some e2 := by
  intro xs
  induction xs with
  | nil => intro e _; exact ⟨rfl, e, rfl⟩
  | cons x xs ih =>
    intro e hr
    obtain ⟨e1, hu⟩ := update_event_some c x e (hr x (List.mem_cons_self _ _))
    have hlen := update_event_length c x e e1 hu
    have := ih e1 (fun y hy => hlen ▸ hr y (List.mem_cons_of_mem _ hy))
    unfold ASEP.replay
    rw [hu]
    exact ⟨by simp [this.1], this.2⟩

/-- The relation `comp b a = false` for the comparator of the engine is the order of the
timestamps. -/
theorem not_compare_iff (a b : vec_pair) : vec_pair_compare b a = false ↔ a.2 ≤ b.2 := by
  simp [vec_pair_compare]

theorem insertionSort_sorted (l : List vec_pair) :
    (List.insertionSort (fun a b : vec_pair => vec_pair_compare b a = false) l).Pairwise
      (fun a b => vec_pair_compare b a = false) := by
  haveI : IsTotal vec_pair (fun a b : vec_pair => vec_pair_compare b a = false) :=
    ⟨fun a b => by simp only [not_compare_iff]; exact le_total a.2 b.2⟩
  haveI : IsTrans vec_pair (fun a b : vec_pair => vec_pair_compare b a = false) :=
    ⟨fun a b d hab hbd => by
      simp only [not_compare_iff] at hab hbd ⊢
      exact le_trans hab hbd⟩
  exact List.sorted_insertionSort _ l

theorem stdSort_insertion_sort : StdSort insertion_sort := by
  intro l
  exact ⟨List.perm_insertionSort _ l, insertionSort_sorted l⟩

theorem stdSort_backward_sort : StdSort backward_sort := by
  intro l
  exact ⟨(List.perm_insertionSort _ l.reverse).trans (List.reverse_perm l),
    insertionSort_sorted l.reverse⟩

/-- The entries of the sorted vector carry indices of the particle vector. -/
theorem events_in_range (c : Collaborators Universe Position Timer URNG)
    (std_sort : (vec_pair → vec_pair → Bool) → List vec_pair → List vec_pair)
    (hs : StdSort std_sort) (e : ASEP Universe Position Timer URNG) (time : Time) :
    ∀ x ∈ ASEP.events c std_sort e time, x.1 < (ASEP.sampled c e time).particles.length := by
  intro x hx
  have hx2 : x ∈ ASEP.candidates c e time := ((hs _).1.mem_iff).1 hx
  have := collect_index c time e.particles 0 x hx2
  simp only [ASEP.sampled, collect_length]
  omega

theorem updates_eq_events (c : Collaborators Universe Position Timer URNG)
    (std_sort : (vec_pair → vec_pair → Bool) → List vec_pair → List vec_pair)
    (hs : StdSort std_sort) (e : ASEP Universe Position Timer URNG) (time : Time) :
    ASEP.updates c std_sort e time = ASEP.events c std_sort e time :=
  (replay_in_range c _ _ (events_in_range c std_sort hs e time)).1

theorem run_returns (c : Collaborators Universe Position Timer URNG)
    (std_sort : (vec_pair → vec_pair → Bool) → List vec_pair → List vec_pair)
    (hs : StdSort std_sort) (e : ASEP Universe Position Timer URNG) (time : Time) :
    ∃ e2, ASEP.run c std_sort e time = some e2 :=
  (replay_in_range c _ _ (events_in_range c std_sort hs e time)).2

theorem run_upto_returns (c : Collaborators Universe Position Timer URNG)
    (std_sort : (vec_pair → vec_pair → Bool) → List vec_pair → List vec_pair)
    (hs : StdSort std_sort) (e : ASEP Universe Position Timer URNG) (time : Time) (k : Nat) :
    ∃ e2, ASEP.run_upto c std_sort e time k = some e2 :=
  (replay_in_range c _ _
    (fun x hx => events_in_range c std_sort hs e time x (List.mem_of_mem_take hx))).2

theorem sampled_positions (c : Collaborators Universe Position Timer URNG)
    (e : ASEP Universe Position Timer URNG) (time : Time) :
    (ASEP.sampled c e time).get_positions = e.get_positions :=
  collect_positions c time e.particles 0

theorem nodup_set {α : Type} (q : α) :
    ∀ (l : List α) (i : Nat), l.Nodup → q ∉ l → (l.set i q).Nodup := by
  intro l
  induction l with
  | nil => intro i h _; simp
  | cons a l ih =>
    intro i h hq
    rw [List.nodup_cons] at h
    rw [List.mem_cons, not_or] at hq
    cases i with
    | zero =>
      rw [List.set_cons_zero, List.nodup_cons]
      exact ⟨hq.2, h.2⟩
    | succ i =>
      rw [List.set_cons_succ, List.nodup_cons]
      refine ⟨fun hm => ?_, ih i h.2 hq.2⟩
      rcases List.mem_or_eq_of_mem_set hm with hm | hm
      · exact h.1 hm
      · exact hq.1 (hm ▸ rfl)

/-- What one pass of the loop body does to the positions: nothing, or the particle behind
the index moves to a position that the predicate did not block. -/
theorem update_event_positions (c : Collaborators Universe Position Timer URNG) (x : vec_pair)
    (e e1 : ASEP Universe Position Timer URNG) (h : ASEP.update_event c x e = some e1) :
    e1.get_positions = e.get_positions ∨
      ∃ q, e.exclusion_function q e.particles = false ∧
        e1.get_positions = e.get_positions.set x.1 q := by
  unfold ASEP.update_event at h
  split at h
  · exact absurd h (by simp)
  · rename_i p hp
    injection h with h
    subst h
    simp only [ASEP.get_positions, Particle.update, List.map_set]
    by_cases hb : e.exclusion_function
        (c.propose p.the_universe p.position e.generator).1 e.particles = true
    · left
      simp only [hb, if_true]
      rw [List.getElem?_eq_some] at hp
      obtain ⟨hlt, hget⟩ := hp
      apply List.ext_getElem (by simp)
      intro n h1 h2
      rw [List.getElem_set]
      split
      · rename_i hn
        subst hn
        simp [hget]
      · rfl
    · right
      refine ⟨(c.propose p.the_universe p.position e.generator).1, by simpa using hb, ?_⟩
      simp only [hb]
      rfl

/-- With the canonical exclusion function, one pass of the loop body keeps the positions
pairwise distinct. -/
theorem update_event_distinct [DecidableEq Position]
    (c : Collaborators Universe Position Timer URNG) (x : vec_pair)
    (e e1 : ASEP Universe Position Timer URNG)
    (he : e.exclusion_function = exclusion_function ∧ e.get_positions.Nodup)
    (h : ASEP.update_event c x e = some e1) :
    e1.exclusion_function = exclusion_function ∧ e1.get_positions.Nodup := by
  refine ⟨(update_event_predicate c x e e1 h).trans he.1, ?_⟩
  rcases update_event_positions c x e e1 h with hp | ⟨q, hq, hp⟩
  · rw [hp]; exact he.2
  · rw [hp]
    apply nodup_set q _ _ he.2
    intro hmem
    rw [he.1] at hq
    have : exclusion_function q e.particles = true := by
      rw [exclusion_function_true_iff]
      simp only [ASEP.get_positions, List.mem_map] at hmem
      exact hmem
    rw [this] at hq
    exact absurd hq (by simp)

/-- Under a predicate that blocks everything, one pass of the loop body keeps all
positions. -/
theorem update_event_blocked (c : Collaborators Universe Position Timer URNG) (x : vec_pair)
    (l : List Position) (e e1 : ASEP Universe Position Timer URNG)
    (he : (∀ q ps, e.exclusion_function q ps = true) ∧ e.get_positions = l)
    (h : ASEP.update_event c x e = some e1) :
    (∀ q ps, e1.exclusion_function q ps = true) ∧ e1.get_positions = l := by
  refine ⟨fun q ps => (update_event_predicate c x e e1 h) ▸ he.1 q ps, ?_⟩
  rcases update_event_positions c x e e1 h with hp | ⟨q, hq, _⟩
  · rw [hp]; exact he.2
  · rw [he.1 q e.particles] at hq
    exact absurd hq (by simp)

/-- The tagged vector is built particle by particle, so the indices it carries are
non-decreasing. -/
theorem collect_index_sorted (c : Collaborators Universe Position Timer URNG) (time : Time) :
    ∀ (ps : List (Particle Universe Position Timer)) (index : Nat),
      (ASEP.collect c time index ps).1.Pairwise (fun a b => a.1 ≤ b.1) := by
  intro ps
  induction ps with
  | nil => intro index; simp [ASEP.collect]
  | cons p ps ih =>
    intro index
    simp only [ASEP.collect]
    rw [List.pairwise_append]
    refine ⟨?_, ih (index + 1), ?_⟩
    · rw [List.pairwise_map]
      exact List.pairwise_of_forall (fun _ _ => le_refl index)
    · intro a ha b hb
      simp only [List.mem_map] at ha
      obtain ⟨t, _, rfl⟩ := ha
      have := collect_index c time ps (index + 1) b hb
      simp only
      omega

/-- The particles after the jump-time requests: every particle has served one request. -/
theorem collect_particles (c : Collaborators Universe Position Timer URNG) (time : Time) :
    ∀ (ps : List (Particle Universe Position Timer)) (index : Nat),
      (ASEP.collect c time index ps).2 = ps.map (fun p => (p.jump_times c time).2) := by
  intro ps
  induction ps with
  | nil => intro index; rfl
  | cons p ps ih =>
    intro index
    simp only [ASEP.collect, List.map_cons, ih]

/-- A timer that keeps to `[0, horizon)` returns nothing for a horizon that is not
positive, so the tagged vector is empty. -/
theorem collect_empty (c : Collaborators Universe Position Timer URNG)
    (hj : JumpTimesInHorizon c) (time : Time) (ht : time ≤ 0) :
    ∀ (ps : List (Particle Universe Position Timer)) (index : Nat),
      (ASEP.collect c time index ps).1 = [] := by
  intro ps
  induction ps with
  | nil => intro index; rfl
  | cons p ps ih =>
    intro index
    have hnone : (c.timer_jump_times p.timer time).1 = [] := by
      apply List.eq_nil_iff_forall_not_mem.2
      intro x hx
      have := hj p.timer time x hx
      exact absurd (lt_of_le_of_lt this.1 this.2) (not_lt.2 ht)
    simp [ASEP.collect, Particle.jump_times, hnone, ih]

/-- With an empty tagged vector the replay loop is not entered: no update is invoked and
`run` returns the engine as the jump-time requests left it. -/
theorem run_without_candidates (c : Collaborators Universe Position Timer URNG)
    (std_sort : (vec_pair → vec_pair → Bool) → List vec_pair → List vec_pair)
    (hs : StdSort std_sort) (e : ASEP Universe Position Timer URNG) (time : Time)
    (hc : ASEP.candidates c e time = []) :
    ASEP.events c std_sort e time = [] ∧ ASEP.updates c std_sort e time = [] ∧
      ASEP.run c std_sort e time = some (ASEP.sampled c e time) := by
  have hev : ASEP.events c std_sort e time = [] := by
    unfold ASEP.events
    rw [hc]
    exact List.Perm.eq_nil (hs []).1
  refine ⟨hev, ?_, ?_⟩
  · simp [ASEP.updates, hev, ASEP.replay]
  · simp [ASEP.run, hev, ASEP.replay]

theorem demo_jump_times_in_horizon : JumpTimesInHorizon demo := by
  intro timer horizon x hx
  simp only [demo, List.mem_filter, List.mem_map, List.mem_range, decide_eq_true_eq] at hx
  obtain ⟨⟨k, _, rfl⟩, hlt⟩ := hx
  exact ⟨Nat.cast_nonneg k, hlt⟩

/-- The size of the tagged vector is the sum of the sizes of the particles' answers. -/
theorem collect_size (c : Collaborators Universe Position Timer URNG) (time : Time) :
    ∀ (ps : List (Particle Universe Position Timer)) (index : Nat),
      (ASEP.collect c time index ps).1.length =
        (ps.map (fun p => (p.jump_times c time).1.length)).sum := by
  intro ps
  induction ps with
  | nil => intro index; rfl
  | cons p ps ih =>
    intro index
    simp only [ASEP.collect, List.length_append, List.length_map, List.map_cons,
      List.sum_cons, ih]

/-- The tagged vector carries the tag `index + j` as many times as the particle in place
`j` returned timestamps. -/
theorem collect_count (c : Collaborators Universe Position Timer URNG) (time : Time) :
    ∀ (ps : List (Particle Universe Position Timer)) (index j : Nat),
      (ASEP.collect c time index ps).1.countP (fun x => decide (x.1 = index + j)) =
        ((ps[j]?).map (fun p => (p.jump_times c time).1.length)).getD 0 := by
  intro ps
  induction ps with
  | nil => intro index j; simp [ASEP.collect]
  | cons p ps ih =>
    intro index j
    simp only [ASEP.collect, List.countP_append]
    cases j with
    | zero =>
      have htail : (ASEP.collect c time (index + 1) ps).1.countP
          (fun x => decide (x.1 = index + 0)) = 0 := by
        rw [List.countP_eq_zero]
        intro x hx
        have := collect_index c time ps (index + 1) x hx
        simp only [decide_eq_true_eq]
        omega
      rw [htail, List.countP_map]
      simp [Function.comp_def]
    | succ j =>
      have hhead : ((p.jump_times c time).1.map (fun x => (index, x))).countP
          (fun x => decide (x.1 = index + (j + 1))) = 0 := by
        rw [List.countP_eq_zero]
        intro x hx
        simp only [List.mem_map] at hx
        obtain ⟨t, _, rfl⟩ := hx
        simp
      have hidx : index + (j + 1) = index + 1 + j := by omega
      rw [hhead, hidx, ih (index + 1) j]
      simp

/-- A property of the engine kept by the loop body at every entry of a list is kept by
the replay of that list. -/
theorem replay_keeps_on (c : Collaborators Universe Position Timer URNG)
    (I : ASEP Universe Position Timer URNG → Prop) :
    ∀ (xs : List vec_pair) (e e2 : ASEP Universe Position Timer URNG),
      (∀ x ∈ xs, ∀ e0 e1, I e0 → ASEP.update_event c x e0 = some e1 → I e1) →
        I e → (ASEP.replay c xs e).2 = some e2 → I e2 := by
  intro xs
  induction xs with
  | nil =>
    intro e e2 _ he h
    simp only [ASEP.replay, Option.some.injEq] at h
    exact h ▸ he
  | cons x xs ih =>
    intro e e2 hI he h
    unfold ASEP.replay at h
    cases hu : ASEP.update_event c x e with
    | none => rw [hu] at h; exact absurd h (by simp)
    | some e1 =>
      rw [hu] at h
      exact ih e1 e2 (fun y hy => hI y (List.mem_cons_of_mem _ hy))
        (hI x (List.mem_cons_self _ _) e e1 he hu) h

/-- Replaying a concatenation is replaying the first part and then the second. -/
theorem replay_append (c : Collaborators Universe Position Timer URNG) :
    ∀ (xs ys : List vec_pair) (e : ASEP Universe Position Timer URNG),
      (ASEP.replay c (xs ++ ys) e).2 =
        (ASEP.replay c xs e).2.bind (fun e1 => (ASEP.replay c ys e1).2) := by
  intro xs
  induction xs with
  | nil => intro ys e; rfl
  | cons x xs ih =>
    intro ys e
    simp only [List.cons_append, ASEP.replay]
    cases hu : ASEP.update_event c x e with
    | none => rfl
    | some e1 => exact ih ys e1

theorem count_set_le {α : Type} [DecidableEq α] (a q : α) (hq : q ≠ a) :
    ∀ (l : List α) (i : Nat), (l.set i q).count a ≤ l.count a := by
  intro l
  induction l with
  | nil => intro i; simp
  | cons b l ih =>
    intro i
    cases i with
    | zero =>
      rw [List.set_cons_zero, List.count_cons, List.count_cons]
      have : (q == a) = false := by simpa using hq
      simp [this]
    | succ i =>
      rw [List.set_cons_succ, List.count_cons, List.count_cons]
      exact Nat.add_le_add_right (ih i) _

/-- Moving one entry of a position sequence to a position that no entry holds does not
raise the number of pairs sharing a position. -/
theorem sharing_pairs_set_le [DecidableEq Position] (q : Position) :
    ∀ (l : List Position) (i : Nat), q ∉ l →
      sharing_pairs (l.set i q) ≤ sharing_pairs l := by
  intro l
  induction l with
  | nil => intro i _; simp [sharing_pairs]
  | cons a l ih =>
    intro i hq
    rw [List.mem_cons, not_or] at hq
    cases i with
    | zero =>
      rw [List.set_cons_zero]
      simp only [sharing_pairs]
      rw [List.count_eq_zero_of_not_mem hq.2]
      omega
    | succ i =>
      rw [List.set_cons_succ]
      simp only [sharing_pairs]
      exact Nat.add_le_add (count_set_le a q hq.1 l i) (ih i hq.2)

/-- Moving one entry of a position sequence to a position that no entry holds keeps apart
the places that were apart. -/
theorem separated_set (q : Position) (l : List Position) (i j k : Nat) (hq : q ∉ l)
    (h : separated l j k) : separated (l.set i q) j k := by
  obtain ⟨hj, hk, hne⟩ := h
  refine ⟨by simpa using hj, by simpa using hk, ?_⟩
  rw [List.getElem?_eq_getElem hj, List.getElem?_eq_getElem hk] at hne
  rw [List.getElem?_eq_getElem (by simpa using hj),
    List.getElem?_eq_getElem (by simpa using hk), List.getElem_set, List.getElem_set]
  intro heq
  have hjm : l[j] ∈ l := List.getElem_mem hj
  have hkm : l[k] ∈ l := List.getElem_mem hk
  by_cases h1 : i = j <;> by_cases h2 : i = k
  · subst h1; subst h2; exact hne rfl
  · rw [if_pos h1, if_neg h2, Option.some.injEq] at heq
    exact hq (heq ▸ hkm)
  · rw [if_neg h1, if_pos h2, Option.some.injEq] at heq
    exact hq (heq ▸ hjm)
  · rw [if_neg h1, if_neg h2] at heq
    exact hne heq

/-- With the canonical exclusion function, one pass of the loop body does not raise the
number of pairs sharing a position and keeps apart the particles that were apart. -/
theorem update_event_separation [DecidableEq Position]
    (c : Collaborators Universe Position Timer URNG) (x : vec_pair)
    (e e1 : ASEP Universe Position Timer URNG)
    (hpred : e.exclusion_function = exclusion_function)
    (h : ASEP.update_event c x e = some e1) :
    sharing_pairs e1.get_positions ≤ sharing_pairs e.get_positions ∧
      ∀ j k, separated e.get_positions j k → separated e1.get_positions j k := by
  rcases update_event_positions c x e e1 h with hp | ⟨q, hq, hp⟩
  · rw [hp]; exact ⟨le_refl _, fun _ _ hs => hs⟩
  · have hfree : q ∉ e.get_positions := by
      intro hmem
      rw [hpred] at hq
      have : exclusion_function q e.particles = true := by
        rw [exclusion_function_true_iff]
        simp only [ASEP.get_positions, List.mem_map] at hmem
        exact hmem
      rw [this] at hq
      exact absurd hq (by simp)
    rw [hp]
    exact ⟨sharing_pairs_set_le q _ _ hfree,
      fun j k hs => separated_set q _ _ j k hfree hs⟩

/-- The replay of the first `m` events continues the replay of the first `k ≤ m`. -/
theorem run_upto_continues (c : Collaborators Universe Position Timer URNG)
    (std_sort : (vec_pair → vec_pair → Bool) → List vec_pair → List vec_pair)
    (e : ASEP Universe Position Timer URNG) (time : Time) (k m : Nat) (hkm : k ≤ m) :
    ASEP.run_upto c std_sort e time m =
      (ASEP.run_upto c std_sort e time k).bind
        (fun ek => (ASEP.replay c (((ASEP.events c std_sort e time).take m).drop k) ek).2) := by
  have hsplit : (ASEP.events c std_sort e time).take m =
      (ASEP.events c std_sort e time).take k ++
        ((ASEP.events c std_sort e time).take m).drop k := by
    have h := List.take_append_drop k ((ASEP.events c std_sort e time).take m)
    rw [List.take_take, Nat.min_eq_left hkm] at h
    exact h.symm
  unfold ASEP.run_upto
  rw [← replay_append, ← hsplit]

/-- With the canonical exclusion function, a replay does not raise the number of pairs
sharing a position and keeps apart the particles that were apart. -/
theorem replay_separation [DecidableEq Position]
    (c : Collaborators Universe Position Timer URNG) (xs : List vec_pair)
    (e e2 : ASEP Universe Position Timer URNG)
    (hpred : e.exclusion_function = exclusion_function)
    (h : (ASEP.replay c xs e).2 = some e2) :
    e2.exclusion_function = exclusion_function ∧
      sharing_pairs e2.get_positions ≤ sharing_pairs e.get_positions ∧
      ∀ j k, separated e.get_positions j k → separated e2.get_positions j k := by
  have hkeep := replay_keeps c
    (fun e1 => e1.exclusion_function = exclusion_function ∧
      sharing_pairs e1.get_positions ≤ sharing_pairs e.get_positions ∧
      ∀ j k, separated e.get_positions j k → separated e1.get_positions j k)
    (fun x e0 e1 he hu =>
      have hsep := update_event_separation c x e0 e1 he.1 hu
      ⟨(update_event_predicate c x e0 e1 hu).trans he.1, le_trans hsep.1 he.2.1,
        fun j k hjk => hsep.2 j k (he.2.2 j k hjk)⟩)
  exact hkeep xs e e2 ⟨hpred, le_refl _, fun _ _ hjk => hjk⟩ h

/-- One pass of the loop body leaves the particles behind the other indices as they are. -/
theorem update_event_other (c : Collaborators Universe Position Timer URNG) (x : vec_pair)
    (e e1 : ASEP Universe Position Timer URNG) (h : ASEP.update_event c x e = some e1)
    (i : Nat) (hi : x.1 ≠ i) : e1.particles[i]? = e.particles[i]? := by
  unfold ASEP.update_event at h
  split at h
  · exact absurd h (by simp)
  · injection h with h
    subst h
    exact List.getElem?_set_ne hi

/-- One pass of the loop body changes no particle's universe or timer: every place of the
vector keeps its particle. -/
theorem update_event_frame (c : Collaborators Universe Position Timer URNG) (x : vec_pair)
    (e e1 : ASEP Universe Position Timer URNG) (h : ASEP.update_event c x e = some e1) :
    e1.particles.map (fun p => (p.the_universe, p.timer)) =
      e.particles.map (fun p => (p.the_universe, p.timer)) := by
  unfold ASEP.update_event at h
  split at h
  · exact absurd h (by simp)
  · rename_i p hp
    injection h with h
    subst h
    rw [List.getElem?_eq_some] at hp
    obtain ⟨hlt, hget⟩ := hp
    simp only [List.map_set]
    apply List.ext_getElem (by simp)
    intro n h1 h2
    rw [List.getElem_set]
    split
    · rename_i hn
      subst hn
      simp only [List.getElem_map, hget, Particle.update]
      split <;> rfl
    · rfl

theorem replay_length (c : Collaborators Universe Position Timer URNG) (xs : List vec_pair)
    (e e2 : ASEP Universe Position Timer URNG) (h : (ASEP.replay c xs e).2 = some e2) :
    e2.particles.length = e.particles.length :=
  replay_keeps c (fun e1 => e1.particles.length = e.particles.length)
    (fun x e0 e1 he hu => (update_event_length c x e0 e1 hu).trans he) xs e e2 rfl h

/-- A call by reference leaves every other generator object as it was. -/
theorem by_reference_other {α : Type} (call : URNG → α × URNG) (object other : GeneratorObject)
    (generators : Generators URNG) (h : other ≠ object) :
    (by_reference call object generators).2 other = generators other :=
  Function.update_noteq h _ _

theorem program_make_particles (c : Collaborators Universe Position Timer URNG)
    (u : Universe) (s : Position) :
    ∀ (n : Nat) (generators : Generators URNG),
      (Program.make_particles c u s n generators).1 =
          (ASEP.make_particles c u s n (generators GeneratorObject.generator)).1 ∧
        (Program.make_particles c u s n generators).2 GeneratorObject.generator =
          (ASEP.make_particles c u s n (generators GeneratorObject.generator)).2 ∧
        (Program.make_particles c u s n generators).2 GeneratorObject.initial_generator =
          generators GeneratorObject.initial_generator := by
  intro n
  induction n with
  | zero => intro generators; exact ⟨rfl, rfl, rfl⟩
  | succ n ih =>
    intro generators
    have h := ih (by_reference (Particle.ctor c u s) GeneratorObject.generator generators).2
    have hmember : (by_reference (Particle.ctor c u s) GeneratorObject.generator
        generators).2 GeneratorObject.generator =
        (Particle.ctor c u s (generators GeneratorObject.generator)).2 := by
      simp [by_reference]
    have hcaller := by_reference_other (Particle.ctor c u s) GeneratorObject.generator
      GeneratorObject.initial_generator generators (by decide)
    rw [hmember, hcaller] at h
    simp only [Program.make_particles, ASEP.make_particles]
    exact ⟨by rw [h.1]; rfl, h.2.1, h.2.2⟩

/-- The constructor with references builds the engine of `ASEP.ctor` from the state of the
caller's generator, and leaves that generator as it was. -/
theorem program_ctor (c : Collaborators Universe Position Timer URNG) (u : Universe) (n : Nat)
    (pred : Position → List (Particle Universe Position Timer) → Bool)
    (generators : Generators URNG) :
    (Program.ctor c u n pred generators).asep =
        ASEP.ctor c u n pred (generators GeneratorObject.initial_generator) ∧
      (Program.ctor c u n pred generators).generators GeneratorObject.initial_generator =
        generators GeneratorObject.initial_generator := by
  have h := program_make_particles c u (c.initial_state u) n
    (Function.update generators GeneratorObject.generator
      (generators GeneratorObject.initial_generator))
  rw [Function.update_same, Function.update_noteq (by decide)] at h
  constructor
  · simp only [Program.asep, Program.ctor, ASEP.ctor, h.1, h.2.1]
  · exact h.2.2

theorem program_update_event (c : Collaborators Universe Position Timer URNG) (x : vec_pair)
    (p : Program Universe Position Timer URNG) :
    (Program.update_event c x p).map Program.asep = ASEP.update_event c x p.asep ∧
      ∀ p1, Program.update_event c x p = some p1 →
        p1.generators GeneratorObject.initial_generator =
          p.generators GeneratorObject.initial_generator := by
  unfold Program.update_event ASEP.update_event
  have hparticles : p.asep.particles = p.particles := rfl
  rw [hparticles]
  cases hq : p.particles[x.1]? with
  | none => exact ⟨rfl, fun p1 h => absurd h (by simp)⟩
  | some q =>
    refine ⟨?_, fun p1 h => ?_⟩
    · simp only [Option.map_some', Program.asep, by_reference, Function.update_same]
    · simp only [Option.some.injEq] at h
      subst h
      exact by_reference_other (fun g => q.update c g p.particles p.exclusion_function)
        GeneratorObject.generator GeneratorObject.initial_generator p.generators (by decide)

theorem program_replay (c : Collaborators Universe Position Timer URNG) :
    ∀ (xs : List vec_pair) (p : Program Universe Position Timer URNG),
      (Program.replay c xs p).map Program.asep = (ASEP.replay c xs p.asep).2 ∧
        ∀ p2, Program.replay c xs p = some p2 →
          p2.generators GeneratorObject.initial_generator =
            p.generators GeneratorObject.initial_generator := by
  intro xs
  induction xs with
  | nil =>
    intro p
    refine ⟨rfl, fun p2 h => ?_⟩
    simp only [Program.replay, Option.some.injEq] at h
    rw [← h]
  | cons x xs ih =>
    intro p
    have hstep := program_update_event c x p
    unfold Program.replay ASEP.replay
    cases hu : Program.update_event c x p with
    | none =>
      rw [hu] at hstep
      simp only [Option.map_none'] at hstep
      rw [← hstep.1]
      exact ⟨rfl, fun p2 h => absurd h (by simp)⟩
    | some p1 =>
      rw [hu] at hstep
      simp only [Option.map_some'] at hstep
      rw [← hstep.1]
      simp only [Option.some_bind]
      exact ⟨(ih p1).1, fun p2 h => ((ih p1).2 p2 h).trans (hstep.2 p1 rfl)⟩

/-- The `run` with references computes the `run` of the engine and leaves the caller's
generator as it was. -/
theorem program_run (c : Collaborators Universe Position Timer URNG)
    (std_sort : (vec_pair → vec_pair → Bool) → List vec_pair → List vec_pair)
    (p : Program Universe Position Timer URNG) (time : Time) :
    (Program.run c std_sort p time).map Program.asep = ASEP.run c std_sort p.asep time ∧
      ∀ p2, Program.run c std_sort p time = some p2 →
        p2.generators GeneratorObject.initial_generator =
          p.generators GeneratorObject.initial_generator :=
  program_replay c _ { p with particles := (ASEP.collect c time 0 p.particles).2 }

/-- A sequence of `run` calls returns and leaves the caller's generator as it was. -/
theorem program_runs (c : Collaborators Universe Position Timer URNG)
    (std_sort : (vec_pair → vec_pair → Bool) → List vec_pair → List vec_pair)
    (hs : StdSort std_sort) :
    ∀ (horizons : List Time) (p : Program Universe Position Timer URNG),
      ∃ p2, Program.runs c std_sort horizons p = some p2 ∧
        p2.generators GeneratorObject.initial_generator =
          p.generators GeneratorObject.initial_generator := by
  intro horizons
  induction horizons with
  | nil => intro p; exact ⟨p, rfl, rfl⟩
  | cons time rest ih =>
    intro p
    have hrun := program_run c std_sort p time
    obtain ⟨e2, h2⟩ := run_returns c std_sort hs p.asep time
    cases hp : Program.run c std_sort p time with
    | none =>
      rw [hp, h2] at hrun
      exact absurd hrun.1 (by simp)
    | some p1 =>
      obtain ⟨p2, hp2, hg⟩ := ih p1
      refine ⟨p2, ?_, hg.trans (hrun.2 p1 hp)⟩
      simp only [Program.runs, hp, Option.some_bind]
      exact hp2

/-! #### The insertion sort of libstdc++ -/

theorem linear_insert_loop_perm (comp : vec_pair → vec_pair → Bool) (val : vec_pair) :
    ∀ r : List vec_pair,
      (libstdcxx.unguarded_linear_insert_loop comp val r).Perm (val :: r) := by
  intro r
  induction r with
  | nil => exact List.Perm.refl _
  | cons x xs ih =>
    simp only [libstdcxx.unguarded_linear_insert_loop]
    split
    · exact (ih.cons x).trans (List.Perm.swap val x xs)
    · exact List.Perm.refl _

/-- The insertion loop moves the value only past elements of a later timestamp, so among
the entries of one timestamp the value stays the last to have arrived. -/
theorem linear_insert_loop_filter (val : vec_pair) (t : Time) :
    ∀ r : List vec_pair,
      (libstdcxx.unguarded_linear_insert_loop vec_pair_compare val r).filter
          (fun x => decide (x.2 = t)) =
        [val].filter (fun x => decide (x.2 = t)) ++ r.filter (fun x => decide (x.2 = t)) := by
  intro r
  induction r with
  | nil => simp [libstdcxx.unguarded_linear_insert_loop]
  | cons x xs ih =>
    simp only [libstdcxx.unguarded_linear_insert_loop]
    split
    · rename_i hlt
      simp only [vec_pair_compare, decide_eq_true_eq] at hlt
      rw [List.filter_cons, ih]
      by_cases hx : x.2 = t
      · have hv : ¬ val.2 = t := fun hv => absurd hlt (by rw [hv, hx]; exact lt_irrefl t)
        simp [hx, hv]
      · simp [hx]
    · rw [← List.filter_append]
      rfl

theorem linear_insert_loop_sorted (val : vec_pair) :
    ∀ r : List vec_pair, r.Pairwise (fun a b => b.2 ≤ a.2) →
      (libstdcxx.unguarded_linear_insert_loop vec_pair_compare val r).Pairwise
        (fun a b => b.2 ≤ a.2) := by
  intro r
  induction r with
  | nil => intro _; simp [libstdcxx.unguarded_linear_insert_loop]
  | cons x xs ih =>
    intro h
    rw [List.pairwise_cons] at h
    simp only [libstdcxx.unguarded_linear_insert_loop]
    split
    · rename_i hlt
      simp only [vec_pair_compare, decide_eq_true_eq] at hlt
      rw [List.pairwise_cons]
      refine ⟨fun y hy => ?_, ih h.2⟩
      rcases List.mem_cons.1 ((linear_insert_loop_perm _ val xs).mem_iff.1 hy) with hy | hy
      · rw [hy]; exact le_of_lt hlt
      · exact h.1 y hy
    · rename_i hlt
      simp only [vec_pair_compare, decide_eq_true_eq, not_lt] at hlt
      rw [List.pairwise_cons, List.pairwise_cons]
      refine ⟨fun y hy => ?_, h⟩
      rcases List.mem_cons.1 hy with hy | hy
      · rw [hy]; exact hlt
      · exact le_trans (h.1 y hy) hlt

/-- One pass of the loop of `__insertion_sort` keeps the range sorted, adds the value to
it, and puts the value behind the entries of its own timestamp. -/
theorem insertion_sort_step_spec (sorted : List vec_pair) (val : vec_pair) (t : Time)
    (hs : sorted.Pairwise (fun a b => a.2 ≤ b.2)) :
    (libstdcxx.insertion_sort_step vec_pair_compare sorted val).Pairwise
        (fun a b => a.2 ≤ b.2) ∧
      (libstdcxx.insertion_sort_step vec_pair_compare sorted val).Perm (sorted ++ [val]) ∧
      (libstdcxx.insertion_sort_step vec_pair_compare sorted val).filter
          (fun x => decide (x.2 = t)) =
        sorted.filter (fun x => decide (x.2 = t)) ++
          [val].filter (fun x => decide (x.2 = t)) := by
  cases sorted with
  | nil => exact ⟨by simp [libstdcxx.insertion_sort_step], List.Perm.refl _, rfl⟩
  | cons first rest =>
    simp only [libstdcxx.insertion_sort_step]
    split
    · rename_i hlt
      simp only [vec_pair_compare, decide_eq_true_eq] at hlt
      have hall : ∀ y ∈ first :: rest, val.2 < y.2 := by
        intro y hy
        rcases List.mem_cons.1 hy with hy | hy
        · rw [hy]; exact hlt
        · exact lt_of_lt_of_le hlt ((List.pairwise_cons.1 hs).1 y hy)
      refine ⟨List.pairwise_cons.2 ⟨fun y hy => le_of_lt (hall y hy), hs⟩,
        (List.perm_append_singleton val _).symm, ?_⟩
      by_cases hv : val.2 = t
      · have hnone : (first :: rest).filter (fun x => decide (x.2 = t)) = [] := by
          rw [List.filter_eq_nil_iff]
          intro y hy
          have := hall y hy
          simp only [decide_eq_true_eq]
          intro hyt
          rw [hyt, hv] at this
          exact lt_irrefl t this
        rw [List.filter_cons, hnone]
        simp [hv]
      · rw [List.filter_cons]
        simp [hv]
    · unfold libstdcxx.unguarded_linear_insert
      refine ⟨?_, ?_, ?_⟩
      · rw [List.pairwise_reverse]
        exact linear_insert_loop_sorted val _ (List.pairwise_reverse.2 hs)
      · exact (List.reverse_perm _).trans
          ((linear_insert_loop_perm _ val _).trans
            (((List.reverse_perm (first :: rest)).cons val).trans
              (List.perm_append_singleton val _).symm))
      · rw [List.filter_reverse, linear_insert_loop_filter, List.reverse_append,
          List.filter_reverse, List.reverse_reverse]
        by_cases hv : val.2 = t <;> simp [hv]

/-- The insertion sort of libstdc++ sorts, rearranges, and keeps the entries of one
timestamp in the order they had. -/
theorem libstdcxx_insertion_sort_spec (t : Time) :
    ∀ (arr sorted : List vec_pair), sorted.Pairwise (fun a b => a.2 ≤ b.2) →
      (arr.foldl (libstdcxx.insertion_sort_step vec_pair_compare) sorted).Pairwise
          (fun a b => a.2 ≤ b.2) ∧
        (arr.foldl (libstdcxx.insertion_sort_step vec_pair_compare) sorted).Perm
          (sorted ++ arr) ∧
        (arr.foldl (libstdcxx.insertion_sort_step vec_pair_compare) sorted).filter
            (fun x => decide (x.2 = t)) =
          sorted.filter (fun x => decide (x.2 = t)) ++
            arr.filter (fun x => decide (x.2 = t)) := by
  intro arr
  induction arr with
  | nil => intro sorted hs; simp [hs]
  | cons val arr ih =>
    intro sorted hs
    have hstep := insertion_sort_step_spec sorted val t hs
    have hrest := ih _ hstep.1
    rw [List.foldl_cons]
    refine ⟨hrest.1, ?_, ?_⟩
    · refine hrest.2.1.trans ?_
      have := hstep.2.1.append_right arr
      simpa using this
    · rw [hrest.2.2, hstep.2.2, List.append_assoc, ← List.filter_append]
      rfl

theorem introsort_loop_small (comp : vec_pair → vec_pair → Bool) (depth_limit first last : Nat)
    (arr : List vec_pair) (h : last - first ≤ 16) :
    libstdcxx.introsort_loop comp depth_limit first last arr = arr := by
  cases depth_limit <;> simp [libstdcxx.introsort_loop, Nat.not_lt.2 h]

/-- Up to 16 elements `std::sort` of libstdc++ is its insertion sort. -/
theorem libstdcxx_sort_small (comp : vec_pair → vec_pair → Bool) (arr : List vec_pair)
    (h : arr.length ≤ 16) : libstdcxx.sort comp arr = libstdcxx.insertion_sort comp arr := by
  cases arr with
  | nil => rfl
  | cons x xs =>
    simp only [libstdcxx.sort]
    rw [introsort_loop_small comp _ 0 _ _ (by simpa using h)]
    unfold libstdcxx.final_insertion_sort
    rw [if_neg (Nat.not_lt.2 h)]

theorem libstdcxx_sort_small_spec (arr : List vec_pair) (h : arr.length ≤ 16) (t : Time) :
    (libstdcxx.sort vec_pair_compare arr).Perm arr ∧
      (libstdcxx.sort vec_pair_compare arr).filter (fun x => decide (x.2 = t)) =
        arr.filter (fun x => decide (x.2 = t)) := by
  rw [libstdcxx_sort_small _ arr h]
  have := libstdcxx_insertion_sort_spec t arr [] List.Pairwise.nil
  exact ⟨by simpa using this.2.1, by simpa using this.2.2⟩

/-- When the sort rearranges the tagged vector, the replay invokes the update of every
sorted entry. -/
theorem updates_eq_events_of_perm (c : Collaborators Universe Position Timer URNG)
    (std_sort : (vec_pair → vec_pair → Bool) → List vec_pair → List vec_pair)
    (e : ASEP Universe Position Timer URNG) (time : Time)
    (hperm : (ASEP.events c std_sort e time).Perm (ASEP.candidates c e time)) :
    ASEP.updates c std_sort e time = ASEP.events c std_sort e time := by
  refine (replay_in_range c _ _ (fun x hx => ?_)).1
  have := collect_index c time e.particles 0 x (hperm.mem_iff.1 hx)
  simp only [ASEP.sampled, collect_length]
  omega

/-- The entries of the tagged vector with the tag `index + j` are the timestamps the
particle in place `j` returned, in the order it returned them. -/
theorem collect_filter_index (c : Collaborators Universe Position Timer URNG) (time : Time) :
    ∀ (ps : List (Particle Universe Position Timer)) (index j : Nat),
      (ASEP.collect c time index ps).1.filter (fun x => decide (x.1 = index + j)) =
        (((ps[j]?).map (fun p => (p.jump_times c time).1)).getD []).map
          (fun x => (index + j, x)) := by
  intro ps
  induction ps with
  | nil => intro index j; simp [ASEP.collect]
  | cons p ps ih =>
    intro index j
    simp only [ASEP.collect, List.filter_append]
    cases j with
    | zero =>
      have htail : (ASEP.collect c time (index + 1) ps).1.filter
          (fun x => decide (x.1 = index + 0)) = [] := by
        rw [List.filter_eq_nil_iff]
        intro x hx
        have := collect_index c time ps (index + 1) x hx
        simp only [decide_eq_true_eq]
        omega
      rw [htail, List.append_nil, List.filter_eq_self.2]
      · simp
      · intro x hx
        simp only [List.mem_map] at hx
        obtain ⟨y, _, rfl⟩ := hx
        simp
    | succ j =>
      have hhead : ((p.jump_times c time).1.map (fun x => (index, x))).filter
          (fun x => decide (x.1 = index + (j + 1))) = [] := by
        rw [List.filter_eq_nil_iff]
        intro x hx
        simp only [List.mem_map] at hx
        obtain ⟨y, _, rfl⟩ := hx
        simp
      have hidx : index + (j + 1) = index + 1 + j := by omega
      rw [hhead, hidx, ih (index + 1) j]
      simp

/-! #### Executions over routines given as relations -/

theorem make_particles_unique (k : Calls Universe Position Timer URNG) (hk : k.Deterministic)
    (u : Universe) (s : Position) :
    ∀ (n : Nat) (g : URNG) (ps ps1 : List (Particle Universe Position Timer)) (g2 g3 : URNG),
      Calls.MakeParticles k u s n g ps g2 → Calls.MakeParticles k u s n g ps1 g3 →
        ps = ps1 ∧ g2 = g3 := by
  intro n g ps ps1 g2 g3 h
  induction h generalizing ps1 g3 with
  | done g => intro h1; cases h1; exact ⟨rfl, rfl⟩
  | push n g g1 g2 p ps hnew _ ih =>
    intro h1
    cases h1 with
    | push _ _ g1b _ pb psb hnewb hrestb =>
      have heq := hk.2.1 u s g _ _ hnew hnewb
      injection heq with hp hg
      subst hp hg
      obtain ⟨hps, hg2⟩ := ih psb g3 hrestb
      exact ⟨by rw [hps], hg2⟩

theorem collects_unique (k : Calls Universe Position Timer URNG) (hk : k.Deterministic)
    (time : Time) :
    ∀ (index : Nat) (ps : List (Particle Universe Position Timer)) (jt jt1 : List vec_pair)
      (ps1 ps2 : List (Particle Universe Position Timer)),
      Calls.Collects k time index ps jt ps1 → Calls.Collects k time index ps jt1 ps2 →
        jt = jt1 ∧ ps1 = ps2 := by
  intro index ps jt jt1 ps1 ps2 h
  induction h generalizing jt1 ps2 with
  | done index => intro h1; cases h1; exact ⟨rfl, rfl⟩
  | push index p p1 ts rest rest1 jt hj _ ih =>
    intro h1
    cases h1 with
    | push _ _ p1b tsb _ rest1b jtb hjb hrestb =>
      have heq := hk.2.2.1 p time _ _ hj hjb
      injection heq with hts hp
      subst hts hp
      obtain ⟨hjt, hrest⟩ := ih jtb rest1b hrestb
      exact ⟨by rw [hjt], by rw [hrest]⟩

theorem replays_unique (k : Calls Universe Position Timer URNG) (hk : k.Deterministic) :
    ∀ (xs : List vec_pair) (e f f1 : ASEP Universe Position Timer URNG),
      Calls.Replays k xs e f → Calls.Replays k xs e f1 → f = f1 := by
  intro xs e f f1 h
  induction h generalizing f1 with
  | done e => intro h1; cases h1; rfl
  | step x xs e e2 p p1 g1 hp hu _ ih =>
    intro h1
    cases h1 with
    | step _ _ _ _ pb p1b g1b hpb hub hrestb =>
      rw [hp] at hpb
      injection hpb with hpb
      subst hpb
      have heq := hk.2.2.2.1 p e.generator e.particles e.exclusion_function _ _ hu hub
      injection heq with hp1 hg1
      subst hp1 hg1
      exact ih f1 hrestb

theorem constructs_unique (k : Calls Universe Position Timer URNG) (hk : k.Deterministic)
    (u : Universe) (n : Nat)
    (pred : Position → List (Particle Universe Position Timer) → Bool) (g : URNG)
    (e1 e2 : ASEP Universe Position Timer URNG)
    (h1 : k.Constructs u n pred g e1) (h2 : k.Constructs u n pred g e2) : e1 = e2 := by
  obtain ⟨s1, ps1, ga, hs1, hm1, rfl⟩ := h1
  obtain ⟨s2, ps2, gb, hs2, hm2, rfl⟩ := h2
  have hs := hk.1 u s1 s2 hs1 hs2
  subst hs
  obtain ⟨hps, hg⟩ := make_particles_unique k hk u s1 n g ps1 ps2 ga gb hm1 hm2
  rw [hps, hg]

theorem runs_unique (k : Calls Universe Position Timer URNG) (hk : k.Deterministic)
    (time : Time) (e f1 f2 : ASEP Universe Position Timer URNG)
    (h1 : k.Runs time e f1) (h2 : k.Runs time e f2) : f1 = f2 := by
  obtain ⟨jt1, ps1, sorted1, hc1, hsort1, hr1⟩ := h1
  obtain ⟨jt2, ps2, sorted2, hc2, hsort2, hr2⟩ := h2
  obtain ⟨hjt, hps⟩ := collects_unique k hk time 0 e.particles jt1 jt2 ps1 ps2 hc1 hc2
  subst hjt hps
  have hsorted := hk.2.2.2.2 jt1 sorted1 sorted2 hsort1 hsort2
  subst hsorted
  exact replays_unique k hk sorted1 _ f1 f2 hr1 hr2

theorem calls_of_deterministic (c : Collaborators Universe Position Timer URNG)
    (std_sort : (vec_pair → vec_pair → Bool) → List vec_pair → List vec_pair) :
    (calls_of c std_sort).Deterministic :=
  ⟨fun _ _ _ h1 h2 => h1.trans h2.symm, fun _ _ _ _ _ h1 h2 => h1.trans h2.symm,
    fun _ _ _ _ h1 h2 => h1.trans h2.symm, fun _ _ _ _ _ _ h1 h2 => h1.trans h2.symm,
    fun _ _ _ h1 h2 => h1.trans h2.symm⟩

theorem calls_of_make_particles (c : Collaborators Universe Position Timer URNG)
    (std_sort : (vec_pair → vec_pair → Bool) → List vec_pair → List vec_pair)
    (u : Universe) (s : Position) :
    ∀ (n : Nat) (g : URNG),
      Calls.MakeParticles (calls_of c std_sort) u s n g
        (ASEP.make_particles c u s n g).1 (ASEP.make_particles c u s n g).2 := by
  intro n
  induction n with
  | zero => intro g; exact Calls.MakeParticles.done g
  | succ n ih =>
    intro g
    exact Calls.MakeParticles.push n g (Particle.ctor c u s g).2 _ (Particle.ctor c u s g).1 _
      rfl (ih _)

/-- The constructor of the embedding is a construction over the routines given by
functions. -/
theorem calls_of_constructs (c : Collaborators Universe Position Timer URNG)
    (std_sort : (vec_pair → vec_pair → Bool) → List vec_pair → List vec_pair)
    (u : Universe) (n : Nat)
    (pred : Position → List (Particle Universe Position Timer) → Bool) (g : URNG) :
    (calls_of c std_sort).Constructs u n pred g (ASEP.ctor c u n pred g) :=
  ⟨c.initial_state u, _, _, rfl, calls_of_make_particles c std_sort u _ n g, rfl⟩

theorem calls_of_collects (c : Collaborators Universe Position Timer URNG)
    (std_sort : (vec_pair → vec_pair → Bool) → List vec_pair → List vec_pair) (time : Time) :
    ∀ (ps : List (Particle Universe Position Timer)) (index : Nat),
      Calls.Collects (calls_of c std_sort) time index ps
        (ASEP.collect c time index ps).1 (ASEP.collect c time index ps).2 := by
  intro ps
  induction ps with
  | nil => intro index; exact Calls.Collects.done index
  | cons p ps ih =>
    intro index
    exact Calls.Collects.push index p (p.jump_times c time).2 (p.jump_times c time).1 ps _ _
      rfl (ih (index + 1))

theorem calls_of_replays (c : Collaborators Universe Position Timer URNG)
    (std_sort : (vec_pair → vec_pair → Bool) → List vec_pair → List vec_pair) :
    ∀ (xs : List vec_pair) (e f : ASEP Universe Position Timer URNG),
      (ASEP.replay c xs e).2 = some f → Calls.Replays (calls_of c std_sort) xs e f := by
  intro xs
  induction xs with
  | nil =>
    intro e f h
    simp only [ASEP.replay, Option.some.injEq] at h
    subst h
    exact Calls.Replays.done e
  | cons x xs ih =>
    intro e f h
    unfold ASEP.replay at h
    cases hu : ASEP.update_event c x e with
    | none => rw [hu] at h; exact absurd h (by simp)
    | some e1 =>
      rw [hu] at h
      unfold ASEP.update_event at hu
      cases hp : e.particles[x.1]? with
      | none => rw [hp] at hu; exact absurd hu (by simp)
      | some p =>
        rw [hp] at hu
        simp only [Option.some.injEq] at hu
        subst hu
        exact Calls.Replays.step x xs e f p _ _ hp rfl (ih _ f h)

/-- A `run` of the embedding that returns is a run over the routines given by functions. -/
theorem calls_of_runs (c : Collaborators Universe Position Timer URNG)
    (std_sort : (vec_pair → vec_pair → Bool) → List vec_pair → List vec_pair)
    (e f : ASEP Universe Position Timer URNG) (time : Time)
    (h : ASEP.run c std_sort e time = some f) : (calls_of c std_sort).Runs time e f :=
  ⟨_, _, _, calls_of_collects c std_sort time e.particles 0, rfl,
    calls_of_replays c std_sort _ _ f h⟩

end ASEP

/-! ### The claims -/

namespace ASEP

variable {Universe Position Timer URNG : Type}

/-- C1. For every engine state and every horizon (every non-negative one in particular),
`run` invokes the particle updates in non-decreasing timestamp order: in the sequence of
updates invoked by one call, an entry `(i, t)` standing before an entry `(j, s)` has
`t ≤ s`.  `std::sort` enters through its postcondition. -/
theorem run_updates_in_timestamp_order (c : Collaborators Universe Position Timer URNG)
    (std_sort : (vec_pair → vec_pair → Bool) → List vec_pair → List vec_pair)
    (hs : StdSort std_sort) (e : ASEP Universe Position Timer URNG) (time : Time) :
    (ASEP.updates c std_sort e time).Pairwise (fun a b => a.2 ≤ b.2) := by
  rw [updates_eq_events c std_sort hs e time]
  exact (hs _).2.imp (fun {a b} h => (not_compare_iff a b).1 h)

/-- C1 at a concrete engine: two particles, horizon 2, insertion sort. -/
theorem run_updates_in_timestamp_order_witness :
    StdSort insertion_sort ∧
      ASEP.updates demo insertion_sort demo_engine 2 = [(0, 0), (1, 0), (0, 1), (1, 1)] ∧
      (ASEP.updates demo insertion_sort demo_engine 2).Pairwise (fun a b => a.2 ≤ b.2) :=
  ⟨stdSort_insertion_sort, by decide,
    run_updates_in_timestamp_order demo insertion_sort stdSort_insertion_sort demo_engine 2⟩

/-- C2. With the canonical `exclusion_function` as predicate and an update that commits its
proposed move iff the predicate returns false and changes no other particle: if the
particles occupy pairwise distinct positions before `run`, then `run` returns an engine in
which they occupy pairwise distinct positions, and so does the replay of the first `k`
events for every `k`. -/
theorem run_keeps_positions_distinct [DecidableEq Position]
    (c : Collaborators Universe Position Timer URNG)
    (std_sort : (vec_pair → vec_pair → Bool) → List vec_pair → List vec_pair)
    (hs : StdSort std_sort) (e : ASEP Universe Position Timer URNG) (time : Time)
    (hpred : e.exclusion_function = exclusion_function)
    (hdistinct : e.get_positions.Nodup) :
    (∃ e2, ASEP.run c std_sort e time = some e2 ∧ e2.get_positions.Nodup) ∧
      ∀ k, ∃ ek, ASEP.run_upto c std_sort e time k = some ek ∧ ek.get_positions.Nodup := by
  have hstart : (ASEP.sampled c e time).exclusion_function = exclusion_function ∧
      (ASEP.sampled c e time).get_positions.Nodup :=
    ⟨hpred, by rw [sampled_positions]; exact hdistinct⟩
  have hkeep := replay_keeps c
    (fun e => e.exclusion_function = exclusion_function ∧ e.get_positions.Nodup)
    (fun x e e1 he h => update_event_distinct c x e e1 he h)
  constructor
  · obtain ⟨e2, h2⟩ := run_returns c std_sort hs e time
    exact ⟨e2, h2, (hkeep _ _ e2 hstart h2).2⟩
  · intro k
    obtain ⟨ek, hk⟩ := run_upto_returns c std_sort hs e time k
    exact ⟨ek, hk, (hkeep _ _ ek hstart hk).2⟩

/-- C2 at a concrete engine: particles on the nodes 0 and 1, horizon 4. -/
theorem run_keeps_positions_distinct_witness :
    (StdSort insertion_sort ∧ demo_engine.exclusion_function = exclusion_function ∧
      demo_engine.get_positions.Nodup) ∧
    ((∃ e2, ASEP.run demo insertion_sort demo_engine 4 = some e2 ∧ e2.get_positions.Nodup) ∧
      ∀ k, ∃ ek, ASEP.run_upto demo insertion_sort demo_engine 4 k = some ek ∧
        ek.get_positions.Nodup) :=
  ⟨⟨stdSort_insertion_sort, rfl, by decide⟩,
    run_keeps_positions_distinct demo insertion_sort stdSort_insertion_sort demo_engine 4
      rfl (by decide)⟩

/-- C3. For every proposed position `p` and every particle collection `ps`, the canonical
`exclusion_function p ps` returns true exactly when some particle of `ps` has
`get_position` equal to `p`; on the empty collection it returns false. -/
theorem exclusion_function_blocks_iff_occupied [DecidableEq Position]
    (p : Position) (ps : List (Particle Universe Position Timer)) :
    (exclusion_function p ps = true ↔ ∃ q ∈ ps, q.get_position = p) ∧
      exclusion_function p ([] : List (Particle Universe Position Timer)) = false :=
  ⟨exclusion_function_true_iff p ps, rfl⟩

/-- C4. For every universe and particle count `n`, the constructor yields an engine
holding exactly `n` particles, and the position snapshot taken right after construction is
the length-`n` sequence whose every entry is `initial_state()`; with `n = 2` and an initial
state labelled "0", the labels of the snapshot are `["0", "0"]`. -/
theorem ctor_positions (c : Collaborators Universe Position Timer URNG) (u : Universe)
    (n : Nat) (pred : Position → List (Particle Universe Position Timer) → Bool) (g : URNG) :
    (ASEP.ctor c u n pred g).particles.length = n ∧
      (ASEP.ctor c u n pred g).get_positions = List.replicate n (c.initial_state u) ∧
      (∀ i (hi : i < (ASEP.ctor c u n pred g).get_positions.length),
        (ASEP.ctor c u n pred g).get_positions[i] = c.initial_state u) ∧
      ∀ get_label : Position → String, get_label (c.initial_state u) = "0" →
        (ASEP.ctor c u 2 pred g).get_positions.map get_label = ["0", "0"] := by
  have hpos : ∀ m, (ASEP.ctor c u m pred g).get_positions =
      List.replicate m (c.initial_state u) :=
    fun m => make_particles_positions c u (c.initial_state u) m g
  refine ⟨?_, hpos n, ?_, ?_⟩
  · have := congrArg List.length (hpos n)
    simpa [ASEP.get_positions] using this
  · intro i hi
    simp [hpos n]
  · intro get_label hl
    rw [hpos 2]
    simp [List.replicate, hl]

/-- C4 at the test's case: a six-node universe, two particles, node labels printed as
decimal numerals. -/
theorem ctor_positions_witness :
    (fun k : Nat => toString k) (demo.initial_state 6) = "0" ∧
      (ASEP.ctor demo 6 2 exclusion_function 42).particles.length = 2 ∧
      (ASEP.ctor demo 6 2 exclusion_function 42).get_positions.map
        (fun k : Nat => toString k) = ["0", "0"] :=
  ⟨by decide, (ctor_positions demo 6 2 exclusion_function 42).1,
    (ctor_positions demo 6 2 exclusion_function 42).2.2.2 (fun k : Nat => toString k)
      (by decide)⟩

/-- C5. If the exclusion predicate of the engine returns true for every argument and an
update commits a move iff the predicate returns false, then for every horizon and every
initial configuration `run` returns an engine in which every particle has the position it
had before. -/
theorem run_total_blocking (c : Collaborators Universe Position Timer URNG)
    (std_sort : (vec_pair → vec_pair → Bool) → List vec_pair → List vec_pair)
    (hs : StdSort std_sort) (e : ASEP Universe Position Timer URNG) (time : Time)
    (hblock : ∀ q ps, e.exclusion_function q ps = true) :
    ∃ e2, ASEP.run c std_sort e time = some e2 ∧ e2.get_positions = e.get_positions := by
  obtain ⟨e2, h2⟩ := run_returns c std_sort hs e time
  refine ⟨e2, h2, ?_⟩
  have hkeep := replay_keeps c
    (fun e1 => (∀ q ps, e1.exclusion_function q ps = true) ∧
      e1.get_positions = e.get_positions)
    (fun x e0 e1 he h => update_event_blocked c x e.get_positions e0 e1 he h)
  exact (hkeep (ASEP.events c std_sort e time) (ASEP.sampled c e time) e2
    ⟨hblock, sampled_positions c e time⟩ h2).2

/-- C5 at a concrete engine: the particles of `demo_engine` under the predicate that blocks
every move, horizon 4. -/
theorem run_total_blocking_witness :
    StdSort insertion_sort ∧
      ∃ e2, ASEP.run demo insertion_sort
          { demo_engine with exclusion_function := fun _ _ => true } 4 = some e2 ∧
        e2.get_positions = [0, 1] :=
  ⟨stdSort_insertion_sort,
    run_total_blocking demo insertion_sort stdSort_insertion_sort
      { demo_engine with exclusion_function := fun _ _ => true } 4 (fun _ _ => rfl)⟩

/-- C6, as stated, fails.  Seventeen particles with one event each at timestamp 0 give a
tagged vector with the particles in index order; `std::sort` of libstdc++ partitions a
range of more than 16 elements and swaps equal elements in doing so, and `run` invokes
the update of particle 8 first and that of particle 0 tenth. -/
theorem run_ties_reordered :
    ASEP.candidates demo (ASEP.ctor demo 20 17 exclusion_function 0) 1 =
        [(0, 0), (1, 0), (2, 0), (3, 0), (4, 0), (5, 0), (6, 0), (7, 0), (8, 0), (9, 0),
          (10, 0), (11, 0), (12, 0), (13, 0), (14, 0), (15, 0), (16, 0)] ∧
      ASEP.updates demo libstdcxx.sort (ASEP.ctor demo 20 17 exclusion_function 0) 1 =
        [(8, 0), (16, 0), (15, 0), (14, 0), (13, 0), (12, 0), (11, 0), (10, 0), (9, 0),
          (0, 0), (7, 0), (6, 0), (5, 0), (4, 0), (3, 0), (2, 0), (1, 0)] ∧
      (ASEP.updates demo libstdcxx.sort (ASEP.ctor demo 20 17 exclusion_function 0) 1).filter
          (fun x => decide (x.2 = 0)) ≠
        (ASEP.candidates demo (ASEP.ctor demo 20 17 exclusion_function 0) 1).filter
          (fun x => decide (x.2 = 0)) :=
  ⟨by decide, by decide, by decide⟩

/-- C6, amended.  When one `run` call has at most 16 events, `std::sort` of libstdc++ is
its insertion sort and the events of one timestamp are replayed in their original
relative order in the concatenated sequence: the lower particle index first, and the
equal-time events of one particle in the order the particle generated them. -/
theorem run_ties_order (c : Collaborators Universe Position Timer URNG)
    (e : ASEP Universe Position Timer URNG) (time t : Time)
    (hsmall : (ASEP.candidates c e time).length ≤ 16) :
    (ASEP.updates c libstdcxx.sort e time).filter (fun x => decide (x.2 = t)) =
        (ASEP.candidates c e time).filter (fun x => decide (x.2 = t)) ∧
      ((ASEP.updates c libstdcxx.sort e time).filter (fun x => decide (x.2 = t))).Pairwise
        (fun a b => a.1 ≤ b.1) ∧
      ∀ (i : Nat) (hi : i < e.particles.length),
        (ASEP.updates c libstdcxx.sort e time).filter
            (fun x => decide (x.1 = i) && decide (x.2 = t)) =
          ((((e.particles.get ⟨i, hi⟩).jump_times c time).1).filter
            (fun x => decide (x = t))).map (fun x => (i, x)) := by
  have hsort := libstdcxx_sort_small_spec (ASEP.candidates c e time) hsmall t
  have hupd : ASEP.updates c libstdcxx.sort e time =
      libstdcxx.sort vec_pair_compare (ASEP.candidates c e time) :=
    updates_eq_events_of_perm c libstdcxx.sort e time hsort.1
  have hties : (ASEP.updates c libstdcxx.sort e time).filter (fun x => decide (x.2 = t)) =
      (ASEP.candidates c e time).filter (fun x => decide (x.2 = t)) := by
    rw [hupd]; exact hsort.2
  refine ⟨hties, ?_, fun i hi => ?_⟩
  · rw [hties]
    exact (collect_index_sorted c time e.particles 0).sublist (List.filter_sublist _)
  · have hgen := collect_filter_index c time e.particles 0 i
    rw [Nat.zero_add, List.getElem?_eq_getElem hi] at hgen
    rw [← List.filter_filter, hties, List.filter_filter]
    have hswap : (ASEP.candidates c e time).filter
        (fun x => decide (x.1 = i) && decide (x.2 = t)) =
        ((ASEP.candidates c e time).filter (fun x => decide (x.1 = i))).filter
          (fun x => decide (x.2 = t)) := by
      rw [List.filter_filter]
      congr 1
      funext x
      exact Bool.and_comm _ _
    rw [hswap, ASEP.candidates, hgen]
    simp only [Option.map_some', Option.getD_some, List.filter_map]
    rfl

/-- C6, amended, at a concrete engine: the four events of `demo_engine` at horizon 2 are
sorted by insertion, and the two events of timestamp 0 are replayed particle 0 first. -/
theorem run_ties_order_witness :
    (ASEP.candidates demo demo_engine 2).length ≤ 16 ∧
      ASEP.updates demo libstdcxx.sort demo_engine 2 = [(0, 0), (1, 0), (0, 1), (1, 1)] ∧
      (ASEP.updates demo libstdcxx.sort demo_engine 2).filter (fun x => decide (x.2 = 0)) =
        [(0, 0), (1, 0)] :=
  ⟨by decide, by decide,
    (run_ties_order demo demo_engine 2 0 (by decide)).1.trans (by decide)⟩

/-- C7, as stated, fails.  At the horizon -1 `run` returns an engine: nothing is signalled,
and the timer of each particle has served one jump-time request. -/
theorem run_negative_horizon_not_rejected :
    (-1 : Time) < 0 ∧
      demo_engine.particles.map Particle.timer = [0, 0] ∧
      (ASEP.run demo insertion_sort demo_engine (-1)).map
        (fun e => e.particles.map Particle.timer) = some [1, 1] :=
  ⟨by decide, by decide, by decide⟩

/-- C7, amended.  For every negative horizon `run` makes no check: it requests the jump
times of every particle at that horizon and returns the engine those requests leave; when
the particles return only timestamps in `[0, horizon)`, no update is invoked and every
position is unchanged. -/
theorem run_negative_horizon (c : Collaborators Universe Position Timer URNG)
    (std_sort : (vec_pair → vec_pair → Bool) → List vec_pair → List vec_pair)
    (hs : StdSort std_sort) (hj : JumpTimesInHorizon c)
    (e : ASEP Universe Position Timer URNG) (time : Time) (hneg : time < 0) :
    ASEP.run c std_sort e time = some (ASEP.sampled c e time) ∧
      (ASEP.sampled c e time).particles =
        e.particles.map (fun p => (p.jump_times c time).2) ∧
      ASEP.updates c std_sort e time = [] ∧
      (ASEP.sampled c e time).get_positions = e.get_positions := by
  have h := run_without_candidates c std_sort hs e time
    (collect_empty c hj time (le_of_lt hneg) e.particles 0)
  exact ⟨h.2.2, collect_particles c time e.particles 0, h.2.1, sampled_positions c e time⟩

/-- C7, amended, at a concrete engine and the horizon -1. -/
theorem run_negative_horizon_witness :
    (StdSort insertion_sort ∧ JumpTimesInHorizon demo ∧ (-1 : Time) < 0) ∧
      ASEP.updates demo insertion_sort demo_engine (-1) = [] ∧
      (ASEP.sampled demo demo_engine (-1)).get_positions = [0, 1] :=
  ⟨⟨stdSort_insertion_sort, demo_jump_times_in_horizon, by decide⟩,
    (run_negative_horizon demo insertion_sort stdSort_insertion_sort
      demo_jump_times_in_horizon demo_engine (-1) (by decide)).2.2.1,
    (run_negative_horizon demo insertion_sort stdSort_insertion_sort
      demo_jump_times_in_horizon demo_engine (-1) (by decide)).2.2.2⟩

/-- C8. For an engine constructed with particle count 0 and for every horizon, the position
snapshot is empty, `run` builds an empty event sequence, invokes no update, and returns
the engine unchanged, so the snapshot after the run is empty as well. -/
theorem run_zero_particles (c : Collaborators Universe Position Timer URNG)
    (std_sort : (vec_pair → vec_pair → Bool) → List vec_pair → List vec_pair)
    (hs : StdSort std_sort) (u : Universe)
    (pred : Position → List (Particle Universe Position Timer) → Bool) (g : URNG)
    (time : Time) :
    (ASEP.ctor c u 0 pred g).get_positions = [] ∧
      ASEP.candidates c (ASEP.ctor c u 0 pred g) time = [] ∧
      ASEP.events c std_sort (ASEP.ctor c u 0 pred g) time = [] ∧
      ASEP.updates c std_sort (ASEP.ctor c u 0 pred g) time = [] ∧
      ASEP.run c std_sort (ASEP.ctor c u 0 pred g) time = some (ASEP.ctor c u 0 pred g) ∧
      (ASEP.run c std_sort (ASEP.ctor c u 0 pred g) time).map ASEP.get_positions =
        some [] := by
  have h := run_without_candidates c std_sort hs (ASEP.ctor c u 0 pred g) time rfl
  have hrun : ASEP.run c std_sort (ASEP.ctor c u 0 pred g) time =
      some (ASEP.ctor c u 0 pred g) := h.2.2
  refine ⟨rfl, rfl, h.1, h.2.1, hrun, ?_⟩
  rw [hrun]
  rfl

/-- C8 at a concrete engine: no particles on a six-node universe, horizon 5. -/
theorem run_zero_particles_witness :
    StdSort insertion_sort ∧
      ASEP.updates demo insertion_sort (ASEP.ctor demo 6 0 exclusion_function 42) 5 = [] ∧
      (ASEP.run demo insertion_sort (ASEP.ctor demo 6 0 exclusion_function 42) 5).map
        ASEP.get_positions = some [] :=
  ⟨stdSort_insertion_sort,
    (run_zero_particles demo insertion_sort stdSort_insertion_sort 6 exclusion_function
      42 5).2.2.2.1,
    (run_zero_particles demo insertion_sort stdSort_insertion_sort 6 exclusion_function
      42 5).2.2.2.2.2⟩

/-- C9. For every engine whose particles return only timestamps in `[0, h)` from
`jump_times(h)`, `run(0)` invokes no update and returns an engine in which every particle
has the position it had before. -/
theorem run_zero_horizon (c : Collaborators Universe Position Timer URNG)
    (std_sort : (vec_pair → vec_pair → Bool) → List vec_pair → List vec_pair)
    (hs : StdSort std_sort) (hj : JumpTimesInHorizon c)
    (e : ASEP Universe Position Timer URNG) :
    ASEP.updates c std_sort e 0 = [] ∧
      ∃ e2, ASEP.run c std_sort e 0 = some e2 ∧ e2.get_positions = e.get_positions := by
  have h := run_without_candidates c std_sort hs e 0
    (collect_empty c hj 0 (le_refl 0) e.particles 0)
  exact ⟨h.2.1, _, h.2.2, sampled_positions c e 0⟩

/-- C9 at the spec's case: two particles constructed on node 0 of a six-node universe stay
on `[0, 0]` under `run(0)`. -/
theorem run_zero_horizon_witness :
    (StdSort insertion_sort ∧ JumpTimesInHorizon demo) ∧
      (ASEP.ctor demo 6 2 exclusion_function 42).get_positions = [0, 0] ∧
      ASEP.updates demo insertion_sort (ASEP.ctor demo 6 2 exclusion_function 42) 0 = [] ∧
      ∃ e2, ASEP.run demo insertion_sort (ASEP.ctor demo 6 2 exclusion_function 42) 0 =
          some e2 ∧ e2.get_positions = [0, 0] :=
  ⟨⟨stdSort_insertion_sort, demo_jump_times_in_horizon⟩, by decide,
    run_zero_horizon demo insertion_sort stdSort_insertion_sort demo_jump_times_in_horizon
      (ASEP.ctor demo 6 2 exclusion_function 42)⟩

/-- C10. The doc comment of `exclusion_function` promises true for a legal move and false
otherwise; the body returns the opposite.  On the empty collection, where every move is
legal, it returns false; with a particle on the proposed node it returns true; and in
general it returns false exactly when no particle occupies the proposed position. -/
theorem exclusion_function_returns_block :
    exclusion_function (0 : Nat) ([] : List (Particle Nat Nat Nat)) = false ∧
      exclusion_function (0 : Nat) [(⟨3, 0, 0⟩ : Particle Nat Nat Nat)] = true ∧
      ∀ (p : Nat) (ps : List (Particle Nat Nat Nat)),
        exclusion_function p ps = false ↔ ∀ q ∈ ps, q.get_position ≠ p := by
  refine ⟨rfl, by decide, fun p ps => ?_⟩
  rw [← Bool.not_eq_true, exclusion_function_true_iff]
  simp

/-- C11. Determinism given a seed.  Let every routine the engine calls (the universe's
`initial_state`, the particle's constructor, `jump_times` and `update` with the predicate
it consults, `std::sort`) be deterministic given its arguments and the generator state
passed to it.  Then for every universe, particle count, exclusion predicate, generator
state and horizon, any two engines the constructor builds from these inputs and any two
executions of `run` with the horizon end in the same engine state, with equal position
sequences. -/
theorem run_deterministic (k : Calls Universe Position Timer URNG) (hk : k.Deterministic)
    (u : Universe) (n : Nat)
    (pred : Position → List (Particle Universe Position Timer) → Bool) (g : URNG)
    (time : Time) (e1 e2 f1 f2 : ASEP Universe Position Timer URNG)
    (hc1 : k.Constructs u n pred g e1) (hc2 : k.Constructs u n pred g e2)
    (hr1 : k.Runs time e1 f1) (hr2 : k.Runs time e2 f2) :
    f1.get_positions = f2.get_positions ∧ f1.particles = f2.particles ∧
      f1.generator = f2.generator := by
  have he := constructs_unique k hk u n pred g e1 e2 hc1 hc2
  subst he
  have hf := runs_unique k hk time e1 f1 f2 hr1 hr2
  subst hf
  exact ⟨rfl, rfl, rfl⟩

/-- C11 at the test's inputs over the stand-in library: a six-node universe, two
particles, the canonical exclusion function, generator state 42, horizon 2.  The routines
are deterministic, the construction and the run exist, and the run ends on `[0, 2]`. -/
theorem run_deterministic_witness :
    (calls_of demo insertion_sort).Deterministic ∧
      (calls_of demo insertion_sort).Constructs 6 2 exclusion_function 42
        (ASEP.ctor demo 6 2 exclusion_function 42) ∧
      ∃ f1 f2, (calls_of demo insertion_sort).Runs 2
          (ASEP.ctor demo 6 2 exclusion_function 42) f1 ∧
        (calls_of demo insertion_sort).Runs 2
          (ASEP.ctor demo 6 2 exclusion_function 42) f2 ∧
        f1.get_positions = [0, 2] ∧ f1.get_positions = f2.get_positions := by
  obtain ⟨f, hf⟩ := run_returns demo insertion_sort stdSort_insertion_sort
    (ASEP.ctor demo 6 2 exclusion_function 42) 2
  have hruns := calls_of_runs demo insertion_sort _ f 2 hf
  have hconstructs := calls_of_constructs demo insertion_sort 6 2 exclusion_function 42
  have hvalue : (ASEP.run demo insertion_sort (ASEP.ctor demo 6 2 exclusion_function 42) 2).map
      ASEP.get_positions = some [0, 2] := by decide
  rw [hf] at hvalue
  exact ⟨calls_of_deterministic demo insertion_sort, hconstructs, f, f, hruns, hruns,
    by simpa using hvalue,
    (run_deterministic (calls_of demo insertion_sort)
      (calls_of_deterministic demo insertion_sort) 6 2 exclusion_function 42 2
      _ _ f f hconstructs hconstructs hruns hruns).1⟩

/-- C12. For every engine and horizon, the sequence of events replayed by `run` is a
permutation of the tagged candidate events: the number of update invocations is the sum
over the particles of the number of timestamps they returned, and the update of particle
`i` is invoked exactly as many times as particle `i` returned timestamps. -/
theorem run_replays_every_candidate (c : Collaborators Universe Position Timer URNG)
    (std_sort : (vec_pair → vec_pair → Bool) → List vec_pair → List vec_pair)
    (hs : StdSort std_sort) (e : ASEP Universe Position Timer URNG) (time : Time) :
    (ASEP.updates c std_sort e time).Perm (ASEP.candidates c e time) ∧
      (ASEP.updates c std_sort e time).length =
        (e.particles.map (fun p => (p.jump_times c time).1.length)).sum ∧
      ∀ (i : Nat) (hi : i < e.particles.length),
        (ASEP.updates c std_sort e time).countP (fun x => decide (x.1 = i)) =
          ((e.particles.get ⟨i, hi⟩).jump_times c time).1.length := by
  have hperm : (ASEP.updates c std_sort e time).Perm (ASEP.candidates c e time) := by
    rw [updates_eq_events c std_sort hs e time]
    exact (hs _).1
  refine ⟨hperm, ?_, ?_⟩
  · rw [hperm.length_eq]
    exact collect_size c time e.particles 0
  · intro i hi
    rw [hperm.countP_eq]
    have h := collect_count c time e.particles 0 i
    rw [Nat.zero_add] at h
    rw [ASEP.candidates, h, List.getElem?_eq_getElem hi]
    rfl

/-- C12 at a concrete engine: two particles with two ticks each below the horizon 2. -/
theorem run_replays_every_candidate_witness :
    StdSort backward_sort ∧
      ASEP.candidates demo demo_engine 2 = [(0, 0), (0, 1), (1, 0), (1, 1)] ∧
      (ASEP.updates demo backward_sort demo_engine 2).Perm
        (ASEP.candidates demo demo_engine 2) ∧
      (ASEP.updates demo backward_sort demo_engine 2).length = 4 :=
  ⟨stdSort_backward_sort, by decide,
    (run_replays_every_candidate demo backward_sort stdSort_backward_sort demo_engine 2).1,
    (run_replays_every_candidate demo backward_sort stdSort_backward_sort
      demo_engine 2).2.1.trans (by decide)⟩

/-- C13. With the canonical `exclusion_function`, whatever the start: two particles that
occupy different positions before an event occupy different positions after it; along
the replay of one `run` the number of pairs of particles sharing a position never
increases from one event count to a later one, and after `run` it is at most what it was
before, with every pair that was apart still apart. -/
theorem run_never_merges [DecidableEq Position]
    (c : Collaborators Universe Position Timer URNG)
    (std_sort : (vec_pair → vec_pair → Bool) → List vec_pair → List vec_pair)
    (hs : StdSort std_sort) (e : ASEP Universe Position Timer URNG) (time : Time)
    (hpred : e.exclusion_function = exclusion_function) :
    (∀ (x : vec_pair) (e0 e1 : ASEP Universe Position Timer URNG),
        e0.exclusion_function = exclusion_function → ASEP.update_event c x e0 = some e1 →
          ∀ j k, separated e0.get_positions j k → separated e1.get_positions j k) ∧
      (∀ k m, k ≤ m → ∃ ek em, ASEP.run_upto c std_sort e time k = some ek ∧
          ASEP.run_upto c std_sort e time m = some em ∧
          sharing_pairs em.get_positions ≤ sharing_pairs ek.get_positions ∧
          ∀ i j, separated ek.get_positions i j → separated em.get_positions i j) ∧
      ∃ e2, ASEP.run c std_sort e time = some e2 ∧
        sharing_pairs e2.get_positions ≤ sharing_pairs e.get_positions ∧
        ∀ i j, separated e.get_positions i j → separated e2.get_positions i j := by
  refine ⟨fun x e0 e1 h0 hu => (update_event_separation c x e0 e1 h0 hu).2, ?_, ?_⟩
  · intro k m hkm
    obtain ⟨ek, hk⟩ := run_upto_returns c std_sort hs e time k
    obtain ⟨em, hm⟩ := run_upto_returns c std_sort hs e time m
    have hek := replay_separation c _ (ASEP.sampled c e time) ek hpred hk
    have hcont := run_upto_continues c std_sort e time k m hkm
    rw [hk, hm, Option.some_bind] at hcont
    have hem := replay_separation c _ ek em hek.1 hcont.symm
    exact ⟨ek, em, hk, hm, hem.2.1, hem.2.2⟩
  · obtain ⟨e2, h2⟩ := run_returns c std_sort hs e time
    have he2 := replay_separation c _ (ASEP.sampled c e time) e2 hpred h2
    rw [sampled_positions] at he2
    exact ⟨e2, h2, he2.2.1, he2.2.2⟩

/-- C13 at a concrete engine: three particles constructed on node 0 of a six-node
universe share three pairs; after `run(2)` no pair is left. -/
theorem run_never_merges_witness :
    (StdSort insertion_sort ∧
      (ASEP.ctor demo 6 3 exclusion_function 0).exclusion_function = exclusion_function) ∧
      sharing_pairs (ASEP.ctor demo 6 3 exclusion_function 0).get_positions = 3 ∧
      (ASEP.run demo insertion_sort (ASEP.ctor demo 6 3 exclusion_function 0) 2).map
        (fun e2 => sharing_pairs e2.get_positions) = some 0 ∧
      ∃ e2, ASEP.run demo insertion_sort (ASEP.ctor demo 6 3 exclusion_function 0) 2 =
          some e2 ∧
        sharing_pairs e2.get_positions ≤
          sharing_pairs (ASEP.ctor demo 6 3 exclusion_function 0).get_positions ∧
        ∀ i j, separated (ASEP.ctor demo 6 3 exclusion_function 0).get_positions i j →
          separated e2.get_positions i j :=
  ⟨⟨stdSort_insertion_sort, rfl⟩, by decide, by decide,
    (run_never_merges demo insertion_sort stdSort_insertion_sort
      (ASEP.ctor demo 6 3 exclusion_function 0) 2 rfl).2.2⟩

/-- C14. Every event built by `run` carries a particle index below `particles.size()`, and
so does every event of the sorted sequence when its turn in the replay loop comes: the
vector then still has its original size, the lookup `particles[x.first]` is in range and
the loop body goes through; `run` returns an engine with the same number of particles. -/
theorem run_indices_in_range (c : Collaborators Universe Position Timer URNG)
    (std_sort : (vec_pair → vec_pair → Bool) → List vec_pair → List vec_pair)
    (hs : StdSort std_sort) (e : ASEP Universe Position Timer URNG) (time : Time) :
    (∀ x ∈ ASEP.candidates c e time, x.1 < e.particles.length) ∧
      (∀ x ∈ ASEP.events c std_sort e time, x.1 < e.particles.length) ∧
      (∀ (k : Nat) (hk : k < (ASEP.events c std_sort e time).length),
        ∃ ek, ASEP.run_upto c std_sort e time k = some ek ∧
          ek.particles.length = e.particles.length ∧
          ((ASEP.events c std_sort e time).get ⟨k, hk⟩).1 < ek.particles.length ∧
          ∃ ek1, ASEP.update_event c ((ASEP.events c std_sort e time).get ⟨k, hk⟩) ek =
            some ek1) ∧
      ∃ e2, ASEP.run c std_sort e time = some e2 ∧
        e2.particles.length = e.particles.length := by
  have hsampled : (ASEP.sampled c e time).particles.length = e.particles.length :=
    collect_length c time e.particles 0
  have hev : ∀ x ∈ ASEP.events c std_sort e time, x.1 < e.particles.length :=
    fun x hx => hsampled ▸ events_in_range c std_sort hs e time x hx
  refine ⟨fun x hx => ?_, hev, fun k hk => ?_, ?_⟩
  · have := collect_index c time e.particles 0 x hx
    omega
  · obtain ⟨ek, hek⟩ := run_upto_returns c std_sort hs e time k
    have hlen : ek.particles.length = e.particles.length :=
      (replay_length c _ _ ek hek).trans hsampled
    have hin : ((ASEP.events c std_sort e time).get ⟨k, hk⟩).1 < ek.particles.length :=
      hlen ▸ hev _ (List.get_mem _ k hk)
    exact ⟨ek, hek, hlen, hin, update_event_some c _ ek hin⟩
  · obtain ⟨e2, h2⟩ := run_returns c std_sort hs e time
    exact ⟨e2, h2, (replay_length c _ _ e2 h2).trans hsampled⟩

/-- C14 at a concrete engine: the four events of `demo_engine` at horizon 2 carry the
indices 0 and 1 of a vector of size 2. -/
theorem run_indices_in_range_witness :
    StdSort insertion_sort ∧
      (ASEP.events demo insertion_sort demo_engine 2).map Prod.fst = [0, 1, 0, 1] ∧
      demo_engine.particles.length = 2 ∧
      ∀ x ∈ ASEP.events demo insertion_sort demo_engine 2,
        x.1 < demo_engine.particles.length :=
  ⟨stdSort_insertion_sort, by decide, rfl,
    (run_indices_in_range demo insertion_sort stdSort_insertion_sort demo_engine 2).2.1⟩

/-- C15. For every engine and horizon, `run` returns an engine with the same number of
particles, every place of the vector keeps its particle (its universe, and its timer as
the jump-time request left it), and a particle whose `jump_times(horizon)` is empty has
the position it had before. -/
theorem run_frame (c : Collaborators Universe Position Timer URNG)
    (std_sort : (vec_pair → vec_pair → Bool) → List vec_pair → List vec_pair)
    (hs : StdSort std_sort) (e : ASEP Universe Position Timer URNG) (time : Time) :
    ∃ e2, ASEP.run c std_sort e time = some e2 ∧
      e2.particles.length = e.particles.length ∧
      e2.particles.map (fun p => (p.the_universe, p.timer)) =
        e.particles.map (fun p => (p.the_universe, (p.jump_times c time).2.timer)) ∧
      ∀ (i : Nat) (hi : i < e.particles.length),
        ((e.particles.get ⟨i, hi⟩).jump_times c time).1 = [] →
          e2.get_positions[i]? = e.get_positions[i]? := by
  obtain ⟨e2, h2⟩ := run_returns c std_sort hs e time
  have hsampled : (ASEP.sampled c e time).particles.length = e.particles.length :=
    collect_length c time e.particles 0
  refine ⟨e2, h2, (replay_length c _ _ e2 h2).trans hsampled, ?_, ?_⟩
  · have hkeep := replay_keeps c
      (fun e1 => e1.particles.map (fun p => (p.the_universe, p.timer)) =
        (ASEP.sampled c e time).particles.map (fun p => (p.the_universe, p.timer)))
      (fun x e0 e1 he hu => (update_event_frame c x e0 e1 hu).trans he)
      _ (ASEP.sampled c e time) e2 rfl h2
    rw [hkeep, ASEP.sampled, collect_particles]
    simp only [List.map_map]
    rfl
  · intro i hi hnone
    have hcount := collect_count c time e.particles 0 i
    rw [Nat.zero_add, List.getElem?_eq_getElem hi] at hcount
    have hzero : (ASEP.candidates c e time).countP (fun x => decide (x.1 = i)) = 0 := by
      rw [ASEP.candidates, hcount]
      simp only [Option.map_some', Option.getD_some]
      exact (congrArg List.length hnone).trans rfl
    rw [List.countP_eq_zero] at hzero
    have hev : ∀ x ∈ ASEP.events c std_sort e time, x.1 ≠ i := by
      intro x hx
      have := hzero x (((hs _).1.mem_iff).1 hx)
      simpa using this
    have hkeep := replay_keeps_on c
      (fun e1 => e1.particles[i]? = (ASEP.sampled c e time).particles[i]?)
      (ASEP.events c std_sort e time) (ASEP.sampled c e time) e2
      (fun x hx e0 e1 he hu => (update_event_other c x e0 e1 hu i (hev x hx)).trans he)
      rfl h2
    have hpos : e2.get_positions[i]? = (ASEP.sampled c e time).get_positions[i]? := by
      simp only [ASEP.get_positions, List.getElem?_map, hkeep]
    rw [hpos, sampled_positions]

/-- C15 at a concrete engine with a mixed answer: at horizon 2 the particle in place 0 of
`idle_engine` returns no jump time while the particle in place 1 returns two, both updates
of particle 1 are invoked and move it from node 1 to node 2, and particle 0 is on node 0
before and after. -/
theorem run_frame_witness :
    StdSort insertion_sort ∧
      ((idle_engine.particles.get ⟨0, by decide⟩).jump_times demo_idle 2).1 = [] ∧
      ASEP.updates demo_idle insertion_sort idle_engine 2 = [(1, 0), (1, 1)] ∧
      idle_engine.get_positions = [0, 1] ∧
      (ASEP.run demo_idle insertion_sort idle_engine 2).map ASEP.get_positions =
        some [0, 2] ∧
      ∃ e2, ASEP.run demo_idle insertion_sort idle_engine 2 = some e2 ∧
        e2.particles.length = 2 ∧ e2.get_positions[0]? = idle_engine.get_positions[0]? :=
  ⟨stdSort_insertion_sort, by decide, by decide, by decide, by decide,
    (run_frame demo_idle insertion_sort stdSort_insertion_sort idle_engine 2).imp
      (fun _ h => ⟨h.1, h.2.1, h.2.2.2 0 (by decide) (by decide)⟩)⟩

/-- C16. The engine works on its own copy of the random generator.  With every `URNG&`
argument of the constructor and of `run` resolved to the object it names: the constructor
copies the caller's generator into the member and seeds the particles from the member,
so it builds the engine of `ASEP.ctor` and leaves the caller's generator in the state it
had; every `run` computes the `run` of the engine; and after construction and any
sequence of `run` calls the caller's generator is still in the state it had before
construction. -/
theorem caller_generator_unchanged (c : Collaborators Universe Position Timer URNG)
    (std_sort : (vec_pair → vec_pair → Bool) → List vec_pair → List vec_pair)
    (hs : StdSort std_sort) (u : Universe) (n : Nat)
    (pred : Position → List (Particle Universe Position Timer) → Bool)
    (generators : Generators URNG) (horizons : List Time) :
    (Program.ctor c u n pred generators).generators GeneratorObject.initial_generator =
        generators GeneratorObject.initial_generator ∧
      (Program.ctor c u n pred generators).asep =
        ASEP.ctor c u n pred (generators GeneratorObject.initial_generator) ∧
      (∀ (p : Program Universe Position Timer URNG) (time : Time),
        (Program.run c std_sort p time).map Program.asep =
          ASEP.run c std_sort p.asep time) ∧
      ∃ p2, Program.runs c std_sort horizons (Program.ctor c u n pred generators) = some p2 ∧
        p2.generators GeneratorObject.initial_generator =
          generators GeneratorObject.initial_generator := by
  have hctor := program_ctor c u n pred generators
  obtain ⟨p2, hruns, hgen⟩ := program_runs c std_sort hs horizons
    (Program.ctor c u n pred generators)
  exact ⟨hctor.2, hctor.1, fun p time => (program_run c std_sort p time).1, p2, hruns,
    hgen.trans hctor.2⟩

/-- C16 at a concrete caller: generator state 42, two particles, runs with horizons 2 and
1.  The member of the engine is at 44 after construction and at 50 after the runs; the
caller's generator stays at 42. -/
theorem caller_generator_unchanged_witness :
    StdSort insertion_sort ∧
      (Program.ctor demo 6 2 exclusion_function demo_generators).generators
        GeneratorObject.generator = 44 ∧
      (Program.runs demo insertion_sort [2, 1]
        (Program.ctor demo 6 2 exclusion_function demo_generators)).map
          (fun p => (p.generators GeneratorObject.initial_generator,
            p.generators GeneratorObject.generator)) = some (42, 50) ∧
      ∃ p2, Program.runs demo insertion_sort [2, 1]
          (Program.ctor demo 6 2 exclusion_function demo_generators) = some p2 ∧
        p2.generators GeneratorObject.initial_generator = 42 :=
  ⟨stdSort_insertion_sort, by decide, by decide,
    (caller_generator_unchanged demo insertion_sort stdSort_insertion_sort 6 2
      exclusion_function demo_generators [2, 1]).2.2.2⟩

end ASEP
